import Mathlib

/-
Verification of the round-robin scheduler kernel (kernel.c) of the
trab1-so teaching OS simulator.

The kernel process is single-logical-threaded: three signal handlers
(timer IRQ0, I/O syscall IRQ2, I/O completion IRQ1) run serialized and
mutate the process table, the circular blocked queue and the scheduler
globals, each ending in a call to schedule().  We embed that state
machine shallowly: the globals become a structure `KState`, each handler
becomes a function `KState → Option (KState × List Event)` where the
`Event` list records the externally observable actions (SIGSTOP/SIGCONT
to a worker, the program counter written to a worker's resume pipe, the
SIGUSR2 begin-I/O-service notification to InterControllerSim) and
`none` models divergence of the scan loop in schedule().  Delivered
interrupts are the inputs (`Ev`); the environment contracts of the spec
(a syscall arrives only from the currently running worker, the
controller raises completion exactly once per begin-service request)
become guards on event delivery, so reachable states are the states
`reach` computes from well-formed event traces.
-/

namespace KernelSim

/-- Process states, mirroring `typedef enum { READY, RUNNING, BLOCKED }` in kernel.c. -/
inductive ProcessState
  | READY
  | RUNNING
  | BLOCKED
deriving DecidableEq

/-- One entry of the process table, mirroring `struct PCB` in kernel.c.
The `pid` and the two pipe file descriptors are external handles; they are
identified here by the entry's table index (events name workers by index).
`io_timer` is declared in the C struct, initialized to 0 and never used. -/
structure PCB where
  state : ProcessState
  io_pending : Bool
  io_timer : Int
  saved_pc : Int
  syscall_param : Char
  saved_pc_valid : Bool
deriving DecidableEq

/-- The PCB contents `main` gives every freshly created entry
(kernel.c lines 471-479): READY, no pending I/O, no valid saved context. -/
def pcbDefault : PCB :=
  { state := ProcessState.READY
    io_pending := false
    io_timer := 0
    saved_pc := 0
    syscall_param := '\x00'
    saved_pc_valid := false }

/-- Externally observable actions of the kernel: `sigStop w` / `sigCont w` are
`kill(pcb_table[w].pid, SIGSTOP/SIGCONT)`, `sendPC w pc` is the write of `pc`
into worker `w`'s resume pipe, and `devStart` is `kill(controller_pid, SIGUSR2)`,
the begin-I/O-service notification to InterControllerSim. -/
inductive Event
  | sigStop (w : Nat)
  | sigCont (w : Nat)
  | sendPC (w : Nat) (pc : Int)
  | devStart
deriving DecidableEq

/-- Mirrors `#define MAX_PROCESSES 6`. -/
def MAX_PROCESSES : Nat := 6

/-- The circular blocked-queue globals of kernel.c: `int blocked_queue[MAX_PROCESSES]`
(a zero-initialized C global), `blocked_front` and `blocked_rear`. -/
structure BQ where
  queue : List Int
  front : Nat
  rear : Nat
deriving DecidableEq

/-- Initial queue state: zeroed array, `front = rear = 0`. -/
def BQ.init : BQ :=
  { queue := List.replicate MAX_PROCESSES 0, front := 0, rear := 0 }

/-- Mirrors `enqueue_blocked` (kernel.c lines 51-54): store at `rear`,
advance `rear` circularly.  No fullness check, exactly as in the C. -/
def enqueue_blocked (q : BQ) (pid_index : Int) : BQ :=
  { queue := q.queue.set q.rear pid_index
    front := q.front
    rear := (q.rear + 1) % MAX_PROCESSES }

/-- Mirrors `dequeue_blocked` (kernel.c lines 70-76): `-1` when
`front == rear` (empty), otherwise return the head and advance `front`. -/
def dequeue_blocked (q : BQ) : BQ × Int :=
  if q.front = q.rear then (q, -1)
  else ({ queue := q.queue, front := (q.front + 1) % MAX_PROCESSES, rear := q.rear },
        q.queue.getD q.front 0)

/-- Mirrors `blocked_is_empty` (kernel.c lines 85-87). -/
def blocked_is_empty (q : BQ) : Bool := q.front == q.rear

/-- The kernel globals of kernel.c: `num_apps`, `pcb_table`, the blocked queue,
`io_in_progress`, `current_running` (-1 = none).  `serviced` is ghost
instrumentation, not a C variable: it records the index of the worker whose
request the simulated device is currently processing — set exactly when the
begin-service notification is sent, cleared when the completion interrupt
arrives.  It never influences any modelled code path. -/
structure KState where
  num_apps : Nat
  pcb : List PCB
  bq : BQ
  io_in_progress : Bool
  current_running : Int
  serviced : Option Nat
deriving DecidableEq

/-- Table lookup `pcb_table[i]` (out of range never happens on guarded runs). -/
def KState.entry (s : KState) (i : Nat) : PCB := s.pcb.getD i pcbDefault

/-- `pcb_table[i].state`. -/
def KState.stateOf (s : KState) (i : Nat) : ProcessState := (s.entry i).state

/-- In-place update of `pcb_table[i]`. -/
def setEntry (s : KState) (i : Nat) (f : PCB → PCB) : KState :=
  { s with pcb := s.pcb.set i (f (s.entry i)) }

/-- One probe of the scan loop in `schedule` (kernel.c lines 346-352), with
explicit fuel: `none` means the loop performed `fuel` probes without exiting,
`some none` means it exited through the `i == current_running` break with no
READY entry found (`next` stays -1), `some (some i)` means entry `i` was the
first one found READY.  The C loop body checks READY before the break, so
`current_running` itself is a candidate on its final probe. -/
def scanLoop (s : KState) : Nat → Nat → Option (Option Nat)
  | 0, _ => none
  | fuel + 1, i =>
    if s.stateOf i = ProcessState.READY then some (some i)
    else if (i : Int) = s.current_running then some none
    else scanLoop s fuel ((i + 1) % s.num_apps)

/-- The scan's starting index `(current_running + 1) % num_apps` (kernel.c
line 346); for `current_running = -1` this is 0, as in C. -/
def scanStart (s : KState) : Nat :=
  ((s.current_running + 1) % (s.num_apps : Int)).toNat

/-- Result of the scan of `schedule`, run with fuel `num_apps`.  With a valid
`current_running` the C loop always exits within `num_apps` probes; fuel
exhaustion (outer `none`) corresponds to the C loop never terminating, which
is possible only when `current_running = -1` and no entry is READY. -/
def findNext (s : KState) : Option (Option Nat) :=
  scanLoop s s.num_apps (scanStart s)

/-- Preemption step of `schedule` (kernel.c lines 360-366): if
`current_running != -1` and that entry is RUNNING, SIGSTOP it and demote it
to READY.  Note this runs only after the scan has already chosen `next`. -/
def applyPreempt (s : KState) : KState × List Event :=
  if s.current_running ≠ -1 ∧ s.stateOf s.current_running.toNat = ProcessState.RUNNING then
    (setEntry s s.current_running.toNat (fun p => { p with state := ProcessState.READY }),
     [Event.sigStop s.current_running.toNat])
  else (s, [])

/-- Switch step of `schedule` (kernel.c lines 368-369): commit `next` as
`current_running` and mark it RUNNING. -/
def applySwitch (s : KState) (j : Nat) : KState :=
  { setEntry s j (fun p => { p with state := ProcessState.RUNNING }) with
      current_running := (j : Int) }

/-- Context-restore step of `schedule` (kernel.c lines 376-380): if the chosen
worker has a valid saved program counter, write the raw saved value to its
resume pipe and clear the flag. -/
def applyRestore (s : KState) (j : Nat) : KState × List Event :=
  if (s.entry j).saved_pc_valid = true then
    (setEntry s j (fun p => { p with saved_pc_valid := false }),
     [Event.sendPC j (s.entry j).saved_pc])
  else (s, [])

/-- The committed branch of `schedule` once the scan found `next = j`:
preempt, switch, restore, then SIGCONT the chosen worker (kernel.c line 382). -/
def schedSelect (s : KState) (j : Nat) : KState × List Event :=
  let pre := applyPreempt s
  let s2 := applySwitch pre.1 j
  let res := applyRestore s2 j
  (res.1, pre.2 ++ res.2 ++ [Event.sigCont j])

/-- Mirrors `schedule` (kernel.c lines 344-383).  If the scan finds no READY
entry, return with no state change and no signal; otherwise run the committed
branch.  `none` is the diverging scan (see `findNext`). -/
def scheduleFn (s : KState) : Option (KState × List Event) :=
  match findNext s with
  | none => none
  | some none => some (s, [])
  | some (some j) => some (schedSelect s j)

/-- Mirrors `handle_irq0` (kernel.c lines 174-178): the timer handler only
invokes the scheduler. -/
def handle_irq0 (s : KState) : Option (KState × List Event) := scheduleFn s

/-- Context-save step of `handle_syscall_from_app` (kernel.c lines 210-223):
on a successful pipe read, record the payload into the current entry and set
`saved_pc_valid`; a failed read (`none`) only logs a diagnostic. -/
def syscallSave (payload : Option (Int × Char)) (s : KState) : KState :=
  match payload with
  | some pr =>
      setEntry s s.current_running.toNat
        (fun p => { p with saved_pc := pr.1, syscall_param := pr.2, saved_pc_valid := true })
  | none => s

/-- Blocking step of `handle_syscall_from_app` (kernel.c lines 225-227):
the current worker becomes BLOCKED with `io_pending = 1` (it is also
SIGSTOPped; the event is emitted by the handler). -/
def syscallBlock (s : KState) : KState :=
  setEntry s s.current_running.toNat
    (fun p => { p with state := ProcessState.BLOCKED, io_pending := true })

/-- Device-start step of `handle_syscall_from_app` (kernel.c lines 237-246):
if no I/O is in progress, dequeue the head and, when one exists, mark it
pending, raise `io_in_progress` and notify the controller. -/
def startIoIfFree (s : KState) : KState × List Event :=
  if s.io_in_progress = false then
    let dq := dequeue_blocked s.bq
    if dq.2 ≠ -1 then
      ({ setEntry { s with bq := dq.1 } dq.2.toNat (fun p => { p with io_pending := true }) with
          io_in_progress := true, serviced := some dq.2.toNat },
       [Event.devStart])
    else ({ s with bq := dq.1 }, [])
  else (s, [])

/-- State and emitted events of `handle_syscall_from_app` just before its
final `schedule()` call: context saved, current worker blocked and enqueued,
device service started if the device was free. -/
def syscallPre (payload : Option (Int × Char)) (s : KState) : KState × List Event :=
  let s1 := syscallSave payload s
  let s2 := syscallBlock s1
  let s3 := { s2 with bq := enqueue_blocked s2.bq s2.current_running }
  startIoIfFree s3

/-- Mirrors `handle_syscall_from_app` (kernel.c lines 205-249): read the
payload, save the context, SIGSTOP and block the current worker, enqueue it,
start device service if the device is free, then schedule. -/
def handle_syscall_from_app (payload : Option (Int × Char)) (s : KState) :
    Option (KState × List Event) :=
  match scheduleFn (syscallPre payload s).1 with
  | none => none
  | some pr =>
    some (pr.1, Event.sigStop s.current_running.toNat :: ((syscallPre payload s).2 ++ pr.2))

/-- Unblock scan of `handle_io_complete` (kernel.c lines 286-295): the first
table entry (lowest index) that is BLOCKED with `io_pending` becomes READY
with `io_pending` cleared; nothing changes if there is none. -/
def ioScan (s : KState) : KState :=
  match (List.range s.num_apps).find?
      (fun i => (s.stateOf i == ProcessState.BLOCKED) && (s.entry i).io_pending) with
  | some i =>
      setEntry s i (fun p => { p with state := ProcessState.READY, io_pending := false })
  | none => s

/-- Restart step of `handle_io_complete` (kernel.c lines 297-305): if the
queue is non-empty, dequeue the next worker, mark it pending, raise
`io_in_progress` and notify the controller. -/
def ioRestart (s : KState) : KState × List Event :=
  if blocked_is_empty s.bq = false then
    let dq := dequeue_blocked s.bq
    ({ setEntry { s with bq := dq.1 } dq.2.toNat (fun p => { p with io_pending := true }) with
        io_in_progress := true, serviced := some dq.2.toNat },
     [Event.devStart])
  else (s, [])

/-- State and emitted events of `handle_io_complete` just before its final
`schedule()` call: `io_in_progress` cleared, unblock scan done, next device
service started from the queue if one was waiting. -/
def ioPre (s : KState) : KState × List Event :=
  ioRestart (ioScan { s with io_in_progress := false, serviced := none })

/-- Mirrors `handle_io_complete` (kernel.c lines 276-308): clear
`io_in_progress` (and the ghost `serviced`), run the unblock scan, restart
the device from the queue if possible, then schedule. -/
def handle_io_complete (s : KState) : Option (KState × List Event) :=
  match scheduleFn (ioPre s).1 with
  | none => none
  | some pr => some (pr.1, (ioPre s).2 ++ pr.2)

/-- The asynchronous inputs of the kernel: the periodic timer interrupt
(SIGUSR1 from the controller), a worker I/O syscall (SIGUSR2, with the payload
the worker wrote to its pipe, `none` modelling the failed read) and the device
completion interrupt (SIGALRM from the controller). -/
inductive Ev
  | timer
  | syscall (payload : Option (Int × Char))
  | ioComplete
deriving DecidableEq

/-- Environment contracts of the spec, as delivery preconditions: a syscall
arrives only from the worker that is currently running (a SIGSTOPped worker
executes no instructions, and only `current_running` is SIGCONTed), and the
controller raises I/O completion exactly once per begin-service notification,
hence only while a device operation is outstanding.  The timer is
unconditional. -/
def evGuard (e : Ev) (s : KState) : Bool :=
  match e with
  | Ev.timer => true
  | Ev.syscall _ =>
      decide (0 ≤ s.current_running ∧ s.current_running < (s.num_apps : Int)) &&
        (s.stateOf s.current_running.toNat == ProcessState.RUNNING)
  | Ev.ioComplete => s.io_in_progress

/-- Delivery of one event: check the environment guard, then run the
corresponding handler. -/
def step (e : Ev) (s : KState) : Option (KState × List Event) :=
  if evGuard e s = true then
    match e with
    | Ev.timer => handle_irq0 s
    | Ev.syscall payload => handle_syscall_from_app payload s
    | Ev.ioComplete => handle_io_complete s
  else none

/-- Serialized delivery of a sequence of events, accumulating the emitted
actions; `none` if some guard fails or some handler diverges. -/
def runE (s : KState) : List Ev → Option (KState × List Event)
  | [] => some (s, [])
  | e :: rest =>
    match step e s with
    | none => none
    | some pr =>
      match runE pr.1 rest with
      | none => none
      | some pr2 => some (pr2.1, pr.2 ++ pr2.2)

/-- The process table and globals right after `main`'s initialization loop
(kernel.c lines 442-485): `n` entries, each READY with no pending I/O and no
valid saved context, empty queue, no I/O in progress, `current_running = -1`. -/
def initState (n : Nat) : KState :=
  { num_apps := n
    pcb := List.replicate n pcbDefault
    bq := BQ.init
    io_in_progress := false
    current_running := -1
    serviced := none }

/-- Mirrors the startup check of `main` (kernel.c lines 431-435): a worker
count outside [3,6] makes the process exit with a configuration error before
any scheduling begins, modelled as `none`. -/
def kernelInit (c : Int) : Option KState :=
  if c < 3 ∨ 6 < c then none else some (initState c.toNat)

/-- Kernel state after `main` has initialized the table and made its first
`schedule()` call (kernel.c line 504). -/
def boot (c : Int) : Option KState :=
  match kernelInit c with
  | none => none
  | some s =>
    match scheduleFn s with
    | none => none
    | some pr => some pr.1

/-- Kernel state after boot with worker count `c` followed by delivery of the
event trace `tr`; the reachable states are exactly the `some` values of
`reach`. -/
def reach (c : Int) (tr : List Ev) : Option KState :=
  match boot c with
  | none => none
  | some s0 =>
    match runE s0 tr with
    | none => none
    | some pr => some pr.1

/-- Probe order of the round-robin scan: the `num_apps` indices starting
immediately after `current_running` and wrapping circularly. -/
def probeSeq (s : KState) : List Nat :=
  (List.range s.num_apps).map (fun k => (scanStart s + k) % s.num_apps)

/-- First READY entry in circular probe order — the spec's description of the
round-robin selection. -/
def circularFirst (s : KState) : Option Nat :=
  (probeSeq s).find? (fun i => s.stateOf i == ProcessState.READY)

/-- Number of begin-I/O-service notifications in an emitted action list. -/
def countDev (evs : List Event) : Nat :=
  evs.countP (fun e => e == Event.devStart)

/-- Number of I/O-completion interrupts in a delivered event trace. -/
def countComp (tr : List Ev) : Nat :=
  tr.countP (fun e => e == Ev.ioComplete)

/-- `io_in_progress` as a count (0 or 1) of outstanding device operations. -/
def flagNat (s : KState) : Nat := if s.io_in_progress then 1 else 0

/-- Every RUNNING entry is the one `current_running` points to. -/
def uniqueRunning (s : KState) : Prop :=
  ∀ i, i < s.num_apps → s.stateOf i = ProcessState.RUNNING →
    (i : Int) = s.current_running

/-- No table entry is READY. -/
def noReady (s : KState) : Prop :=
  ∀ i, i < s.num_apps → s.stateOf i ≠ ProcessState.READY

/-- No table entry is RUNNING. -/
def noRunning (s : KState) : Prop :=
  ∀ i, i < s.num_apps → s.stateOf i ≠ ProcessState.RUNNING

/-- The inductive invariant of the reachable states: a valid worker count and
table, a valid `current_running` index, every RUNNING entry is the current
one, and either the current entry is RUNNING or nothing is READY or RUNNING. -/
def Inv (s : KState) : Prop :=
  3 ≤ s.num_apps ∧ s.pcb.length = s.num_apps ∧
  0 ≤ s.current_running ∧ s.current_running < (s.num_apps : Int) ∧
  uniqueRunning s ∧
  (s.stateOf s.current_running.toNat = ProcessState.RUNNING ∨
    (noReady s ∧ noRunning s))

/-- Enqueue a whole list, head first — the "k enqueue operations" of C5. -/
def enqueueAll (q : BQ) (l : List Int) : BQ := l.foldl enqueue_blocked q

/-- Dequeue `k` times, collecting the returned values in order. -/
def dequeueAll (q : BQ) : Nat → BQ × List Int
  | 0 => (q, [])
  | k + 1 =>
    let d := dequeue_blocked q
    let r := dequeueAll d.1 k
    (r.1, d.2 :: r.2)

/-- Well-formedness of the queue representation: indices in range and the
backing array of length `MAX_PROCESSES` (true of every state the C code
produces). -/
def bqWF (q : BQ) : Prop :=
  q.front < MAX_PROCESSES ∧ q.rear < MAX_PROCESSES ∧ q.queue.length = MAX_PROCESSES

/-- Number of elements logically held by the circular queue. -/
def bqSize (q : BQ) : Nat := (q.rear + MAX_PROCESSES - q.front) % MAX_PROCESSES

/-- Abstraction of the circular queue as the list of held elements,
front first. -/
def bqList (q : BQ) : List Int :=
  (List.range (bqSize q)).map (fun k => q.queue.getD ((q.front + k) % MAX_PROCESSES) 0)

/-- Number of program-counter writes to worker `j`'s resume pipe in an
emitted action list. -/
def countSend (j : Nat) (evs : List Event) : Nat :=
  evs.countP (fun e => match e with
    | Event.sendPC w _ => w == j
    | _ => false)

/-- The state `boot 3` produces: worker 0 RUNNING, workers 1 and 2 READY. -/
def bootState3 : KState :=
  { num_apps := 3
    pcb := [{ pcbDefault with state := ProcessState.RUNNING }, pcbDefault, pcbDefault]
    bq := BQ.init
    io_in_progress := false
    current_running := 0
    serviced := none }

/-- A state with every worker BLOCKED awaiting I/O (scheduler must idle). -/
def idleState3 : KState :=
  { num_apps := 3
    pcb := List.replicate 3
      { pcbDefault with state := ProcessState.BLOCKED, io_pending := true }
    bq := BQ.init
    io_in_progress := true
    current_running := 0
    serviced := some 0 }

/-- A state where worker 1 is READY with a valid saved program counter 7. -/
def ctxState3 : KState :=
  { num_apps := 3
    pcb := [{ pcbDefault with state := ProcessState.RUNNING },
      { pcbDefault with
          state := ProcessState.READY
          saved_pc := 7
          saved_pc_valid := true },
      { pcbDefault with state := ProcessState.BLOCKED, io_pending := true }]
    bq := BQ.init
    io_in_progress := true
    current_running := 0
    serviced := some 2 }

/-- A state where worker 2 is RUNNING and both other workers are BLOCKED. -/
def runState3 : KState :=
  { num_apps := 3
    pcb := [{ pcbDefault with state := ProcessState.BLOCKED, io_pending := true },
      { pcbDefault with state := ProcessState.BLOCKED, io_pending := true },
      { pcbDefault with state := ProcessState.RUNNING }]
    bq := BQ.init
    io_in_progress := true
    current_running := 2
    serviced := some 0 }

/-- A state where worker 2 is RUNNING and worker 0 is READY. -/
def runReadyState3 : KState :=
  { num_apps := 3
    pcb := [pcbDefault,
      { pcbDefault with state := ProcessState.BLOCKED, io_pending := true },
      { pcbDefault with state := ProcessState.RUNNING }]
    bq := BQ.init
    io_in_progress := true
    current_running := 2
    serviced := some 1 }

/-- The state after `bootState3` handles a syscall with payload (5, READ). -/
def afterSyscallState3 : KState :=
  { num_apps := 3
    pcb := [{ state := ProcessState.BLOCKED
              io_pending := true
              io_timer := 0
              saved_pc := 5
              syscall_param := 'R'
              saved_pc_valid := true },
      { pcbDefault with state := ProcessState.RUNNING }, pcbDefault]
    bq := { queue := [0, 0, 0, 0, 0, 0], front := 1, rear := 1 }
    io_in_progress := true
    current_running := 1
    serviced := some 0 }

/-- The actions that syscall handling emits from `bootState3`. -/
def outSyscall3 : List Event :=
  [Event.sigStop 0, Event.devStart, Event.sigCont 1]

theorem getD_set (l : List α) (i j : Nat) (v d : α) :
    (l.set i v).getD j d = if i = j ∧ j < l.length then v else l.getD j d := by
  induction l generalizing i j with
  | nil => simp [List.set]
  | cons a t ih =>
    cases i with
    | zero =>
      cases j with
      | zero => simp
      | succ j => simp [List.getD]
    | succ i =>
      cases j with
      | zero => simp [List.getD]
      | succ j =>
        simp only [List.set, List.getD_cons_succ, List.length_cons, ih]
        by_cases h : i = j ∧ j < t.length
        · rw [if_pos h, if_pos ⟨by omega, by omega⟩]
        · rw [if_neg h, if_neg (by omega)]

theorem getD_replicate (n i : Nat) (x d : α) (h : i < n) :
    (List.replicate n x).getD i d = x := by
  induction n generalizing i with
  | zero => omega
  | succ n ih =>
    cases i with
    | zero => simp [List.replicate]
    | succ i => simpa [List.replicate] using ih i (by omega)

theorem bq_enqueue_spec (q : BQ) (v : Int) (hwf : bqWF q) (hs : bqSize q < 5) :
    bqWF (enqueue_blocked q v) ∧ bqSize (enqueue_blocked q v) = bqSize q + 1 ∧
      bqList (enqueue_blocked q v) = bqList q ++ [v] := by
  obtain ⟨hf, hr, hl⟩ := hwf
  have hM : MAX_PROCESSES = 6 := rfl
  have hq : (enqueue_blocked q v).queue = q.queue.set q.rear v := rfl
  have hfr : (enqueue_blocked q v).front = q.front := rfl
  have hre : (enqueue_blocked q v).rear = (q.rear + 1) % MAX_PROCESSES := rfl
  have hf6 : q.front < 6 := by rw [hM] at hf; exact hf
  have hr6 : q.rear < 6 := by rw [hM] at hr; exact hr
  have hbs : bqSize q = (q.rear + 6 - q.front) % 6 := by rw [bqSize, hM]
  have hsz : bqSize (enqueue_blocked q v) = bqSize q + 1 := by
    simp only [bqSize, hfr, hre, hM]
    omega
  refine ⟨⟨?_, ?_, ?_⟩, hsz, ?_⟩
  · rw [hfr]; exact hf
  · rw [hre, hM]; omega
  · rw [hq, List.length_set]; exact hl
  · simp only [bqList, hsz, hq, hfr, List.range_succ, List.map_append,
      List.map_cons, List.map_nil]
    congr 1
    · apply List.map_congr_left
      intro k hk
      rw [List.mem_range] at hk
      rw [getD_set, if_neg]
      rintro ⟨hset, -⟩
      rw [hM] at hset
      omega
    · rw [getD_set, if_pos]
      refine ⟨?_, ?_⟩
      · rw [hM]
        omega
      · rw [hl, hM]
        omega

theorem dequeue_blocked_pos (q : BQ) (hne : ¬ q.front = q.rear) :
    dequeue_blocked q =
      ({ queue := q.queue, front := (q.front + 1) % MAX_PROCESSES, rear := q.rear },
       q.queue.getD q.front 0) := by
  simp [dequeue_blocked, hne]

theorem bq_dequeue_pos_spec (q : BQ) (hwf : bqWF q) (hs : 0 < bqSize q) :
    bqWF (dequeue_blocked q).1 ∧ bqSize (dequeue_blocked q).1 = bqSize q - 1 ∧
      bqList q = (dequeue_blocked q).2 :: bqList (dequeue_blocked q).1 := by
  obtain ⟨hf, hr, hl⟩ := hwf
  have hM : MAX_PROCESSES = 6 := rfl
  have hne : ¬ q.front = q.rear := by
    intro h
    simp only [bqSize, hM, h] at hs
    omega
  have hf6 : q.front < 6 := by rw [hM] at hf; exact hf
  have hr6 : q.rear < 6 := by rw [hM] at hr; exact hr
  have hbs : bqSize q = (q.rear + 6 - q.front) % 6 := by rw [bqSize, hM]
  have h1 : (dequeue_blocked q).1.queue = q.queue := by rw [dequeue_blocked_pos q hne]
  have h2 : (dequeue_blocked q).1.front = (q.front + 1) % MAX_PROCESSES := by
    rw [dequeue_blocked_pos q hne]
  have h3 : (dequeue_blocked q).1.rear = q.rear := by rw [dequeue_blocked_pos q hne]
  have h4 : (dequeue_blocked q).2 = q.queue.getD q.front 0 := by
    rw [dequeue_blocked_pos q hne]
  have hsz : bqSize (dequeue_blocked q).1 = bqSize q - 1 := by
    simp only [bqSize, h2, h3, hM]
    omega
  refine ⟨⟨?_, ?_, ?_⟩, hsz, ?_⟩
  · rw [h2, hM]; omega
  · rw [h3]; exact hr
  · rw [h1]; exact hl
  · obtain ⟨m, hm⟩ : ∃ m, bqSize q = m + 1 := ⟨bqSize q - 1, by omega⟩
    simp only [bqList, hsz, hm, h1, h2, h4, Nat.add_sub_cancel,
      List.range_succ_eq_map, List.map_cons, List.map_map]
    refine congrArg₂ List.cons ?_ ?_
    · rw [Nat.add_zero, Nat.mod_eq_of_lt hf]
    · apply List.map_congr_left
      intro k hk
      simp only [Function.comp]
      refine congrArg (fun n => q.queue.getD n 0) ?_
      rw [Nat.mod_add_mod, hM]
      omega

theorem bq_dequeue_empty_spec (q : BQ) (h : q.front = q.rear) :
    dequeue_blocked q = (q, -1) := by
  simp [dequeue_blocked, h]

theorem enqueueAll_spec (l : List Int) : ∀ q : BQ, bqWF q → bqSize q + l.length ≤ 5 →
    bqWF (enqueueAll q l) ∧ bqSize (enqueueAll q l) = bqSize q + l.length ∧
      bqList (enqueueAll q l) = bqList q ++ l := by
  induction l with
  | nil => intro q hwf _; simpa [enqueueAll] using hwf
  | cons v t ih =>
    intro q hwf hb
    rw [List.length_cons] at hb
    obtain ⟨h1, h2, h3⟩ := bq_enqueue_spec q v hwf (by omega)
    obtain ⟨g1, g2, g3⟩ := ih (enqueue_blocked q v) h1 (by rw [h2]; omega)
    have he : enqueueAll q (v :: t) = enqueueAll (enqueue_blocked q v) t := rfl
    refine ⟨by rw [he]; exact g1, ?_, ?_⟩
    · rw [he, g2, h2, List.length_cons]
      omega
    · rw [he, g3, h3, List.append_assoc, List.singleton_append]

theorem dequeueAll_spec : ∀ (m : Nat) (q : BQ), bqWF q → bqSize q = m →
    (dequeueAll q m).2 = bqList q := by
  intro m
  induction m with
  | zero =>
    intro q _ hsz
    simp [dequeueAll, bqList, hsz]
  | succ m ih =>
    intro q hwf hsz
    obtain ⟨h1, h2, h3⟩ := bq_dequeue_pos_spec q hwf (by omega)
    simp only [dequeueAll]
    rw [h3, ih (dequeue_blocked q).1 h1 (by omega)]

theorem mod_shift_ne (c e n : Nat) (hc : c < n) (he1 : 1 ≤ e) (he2 : e < n) :
    (c + e) % n ≠ c := by
  intro h
  rcases Nat.lt_or_ge (c + e) n with hlt | hge
  · rw [Nat.mod_eq_of_lt hlt] at h
    omega
  · rw [Nat.mod_eq_sub_mod hge, Nat.mod_eq_of_lt (by omega)] at h
    omega

theorem range_map_mod (a m n : Nat) :
    (List.range (m + 1)).map (fun k => (a + k) % n) =
      (a % n) :: (List.range m).map (fun k => (a + 1 + k) % n) := by
  rw [List.range_succ_eq_map, List.map_cons, List.map_map]
  refine congrArg₂ List.cons (by rw [Nat.add_zero]) ?_
  apply List.map_congr_left
  intro k _
  simp only [Function.comp]
  refine congrArg (fun x => x % n) ?_
  omega

theorem scanLoop_probes (s : KState) (c : Nat)
    (hc : (c : Int) = s.current_running) (hcn : c < s.num_apps) :
    ∀ m, 1 ≤ m → m ≤ s.num_apps →
      scanLoop s m ((c + (s.num_apps - m) + 1) % s.num_apps) =
        some (((List.range m).map (fun k => (c + (s.num_apps - m) + 1 + k) % s.num_apps)).find?
          (fun i => s.stateOf i == ProcessState.READY)) := by
  intro m
  induction m with
  | zero => omega
  | succ m ih =>
    intro _ hle
    by_cases hm : m = 0
    · subst hm
      have hidx : (c + (s.num_apps - 1) + 1) % s.num_apps = c := by
        have h1 : c + (s.num_apps - 1) + 1 = c + s.num_apps := by omega
        rw [h1, Nat.add_mod_right, Nat.mod_eq_of_lt hcn]
      rw [hidx]
      have hlist : (List.range 1).map
          (fun k => (c + (s.num_apps - 1) + 1 + k) % s.num_apps) = [c] := by
        simp [List.range_succ, hidx]
      rw [hlist]
      by_cases hrdy : s.stateOf c = ProcessState.READY
      · simp [scanLoop, hrdy, List.find?]
      · have hb : (s.stateOf c == ProcessState.READY) = false := by
          simp [hrdy]
        simp [scanLoop, hrdy, List.find?, hb, hc]
    · have hm1 : 1 ≤ m := by omega
      have hidx : c + (s.num_apps - (m + 1)) + 1 = c + (s.num_apps - m) := by omega
      have hane : (c + (s.num_apps - (m + 1)) + 1) % s.num_apps ≠ c := by
        rw [hidx]
        exact mod_shift_ne c (s.num_apps - m) s.num_apps hcn (by omega) (by omega)
      rw [range_map_mod]
      by_cases hrdy :
          s.stateOf ((c + (s.num_apps - (m + 1)) + 1) % s.num_apps) = ProcessState.READY
      · have hb : (s.stateOf ((c + (s.num_apps - (m + 1)) + 1) % s.num_apps) ==
            ProcessState.READY) = true := by simp [hrdy]
        have hfc : List.find? (fun i => s.stateOf i == ProcessState.READY)
            (((c + (s.num_apps - (m + 1)) + 1) % s.num_apps) ::
              (List.range m).map
                (fun k => (c + (s.num_apps - (m + 1)) + 1 + 1 + k) % s.num_apps)) =
            some ((c + (s.num_apps - (m + 1)) + 1) % s.num_apps) :=
          List.find?_cons_of_pos _ hb
        rw [scanLoop, if_pos hrdy, hfc]
      · have hb : ¬ ((s.stateOf ((c + (s.num_apps - (m + 1)) + 1) % s.num_apps) ==
            ProcessState.READY) = true) := by simp [hrdy]
        have hbreak :
            ¬ (((c + (s.num_apps - (m + 1)) + 1) % s.num_apps : Nat) : Int) =
              s.current_running := by
          rw [← hc]
          intro h
          exact hane (by exact_mod_cast h)
        have hfc : List.find? (fun i => s.stateOf i == ProcessState.READY)
            (((c + (s.num_apps - (m + 1)) + 1) % s.num_apps) ::
              (List.range m).map
                (fun k => (c + (s.num_apps - (m + 1)) + 1 + 1 + k) % s.num_apps)) =
            List.find? (fun i => s.stateOf i == ProcessState.READY)
              ((List.range m).map
                (fun k => (c + (s.num_apps - (m + 1)) + 1 + 1 + k) % s.num_apps)) :=
          List.find?_cons_of_neg _ hb
        rw [scanLoop, if_neg hrdy, if_neg hbreak, hfc]
        have hnext : ((c + (s.num_apps - (m + 1)) + 1) % s.num_apps + 1) % s.num_apps =
            (c + (s.num_apps - m) + 1) % s.num_apps := by
          rw [Nat.mod_add_mod]
          refine congrArg (fun x => x % s.num_apps) ?_
          omega
        have hfun : (List.range m).map
              (fun k => (c + (s.num_apps - (m + 1)) + 1 + 1 + k) % s.num_apps) =
            (List.range m).map (fun k => (c + (s.num_apps - m) + 1 + k) % s.num_apps) := by
          apply List.map_congr_left
          intro k _
          refine congrArg (fun x => x % s.num_apps) ?_
          omega
        rw [hnext, hfun]
        exact ih hm1 (by omega)

theorem scanStart_eq (s : KState) (h0 : 0 ≤ s.current_running) :
    scanStart s = (s.current_running.toNat + 1) % s.num_apps := by
  rw [scanStart]
  have he : s.current_running = (s.current_running.toNat : Int) :=
    (Int.toNat_of_nonneg h0).symm
  rw [he]
  norm_cast

theorem findNext_eq_circularFirst (s : KState)
    (h0 : 0 ≤ s.current_running) (h1 : s.current_running < (s.num_apps : Int)) :
    findNext s = some (circularFirst s) := by
  have hcn : s.current_running.toNat < s.num_apps := by omega
  have hpos : 1 ≤ s.num_apps := by omega
  have hp := scanLoop_probes s s.current_running.toNat (Int.toNat_of_nonneg h0) hcn
    s.num_apps hpos (le_refl _)
  rw [Nat.sub_self, Nat.add_zero] at hp
  rw [findNext, scanStart_eq s h0, circularFirst, probeSeq, scanStart_eq s h0]
  rw [hp]
  refine congrArg some
    (congrArg (List.find? (fun i => s.stateOf i == ProcessState.READY)) ?_)
  apply List.map_congr_left
  intro k _
  rw [Nat.mod_add_mod]

theorem mem_probeSeq (s : KState) (i : Nat) (hn : 0 < s.num_apps)
    (hi : i < s.num_apps) : i ∈ probeSeq s := by
  rw [probeSeq, List.mem_map]
  refine ⟨(i + s.num_apps - scanStart s % s.num_apps) % s.num_apps, ?_, ?_⟩
  · rw [List.mem_range]
    exact Nat.mod_lt _ hn
  · rw [← Nat.mod_add_mod, Nat.add_mod_mod]
    have hb : scanStart s % s.num_apps ≤ i + s.num_apps := by
      have := Nat.mod_lt (scanStart s) hn
      omega
    rw [show scanStart s % s.num_apps + (i + s.num_apps - scanStart s % s.num_apps) =
      i + s.num_apps by omega]
    rw [Nat.add_mod_right, Nat.mod_eq_of_lt hi]

theorem probeSeq_elt_lt (s : KState) (i : Nat) (hn : 0 < s.num_apps)
    (hi : i ∈ probeSeq s) : i < s.num_apps := by
  rw [probeSeq, List.mem_map] at hi
  obtain ⟨k, -, hk⟩ := hi
  rw [← hk]
  exact Nat.mod_lt _ hn

theorem circularFirst_none_noReady (s : KState) (hn : 0 < s.num_apps)
    (h : circularFirst s = none) : noReady s := by
  intro i hi hr
  rw [circularFirst, List.find?_eq_none] at h
  have := h i (mem_probeSeq s i hn hi)
  simp only [beq_iff_eq] at this
  exact this hr

theorem circularFirst_some_props (s : KState) (j : Nat) (hn : 0 < s.num_apps)
    (h : circularFirst s = some j) :
    j < s.num_apps ∧ s.stateOf j = ProcessState.READY := by
  rw [circularFirst] at h
  refine ⟨probeSeq_elt_lt s j hn (List.mem_of_find?_eq_some h), ?_⟩
  have := List.find?_some h
  simpa [beq_iff_eq] using this

theorem scanLoop_noBreak (s : KState) (hcr : s.current_running = -1) :
    ∀ (fuel i : Nat), i < s.num_apps →
      scanLoop s fuel i = Option.map some
        (((List.range fuel).map (fun k => (i + k) % s.num_apps)).find?
          (fun x => s.stateOf x == ProcessState.READY)) := by
  intro fuel
  induction fuel with
  | zero => intro i _; simp [scanLoop]
  | succ fuel ih =>
    intro i hi
    have hn : 0 < s.num_apps := by omega
    rw [range_map_mod, Nat.mod_eq_of_lt hi]
    by_cases hrdy : s.stateOf i = ProcessState.READY
    · have hb : (s.stateOf i == ProcessState.READY) = true := by simp [hrdy]
      have hfc : List.find? (fun x => s.stateOf x == ProcessState.READY)
          (i :: (List.range fuel).map (fun k => (i + 1 + k) % s.num_apps)) = some i :=
        List.find?_cons_of_pos _ hb
      rw [scanLoop, if_pos hrdy, hfc]
      rfl
    · have hb : ¬ ((s.stateOf i == ProcessState.READY) = true) := by simp [hrdy]
      have hbreak : ¬ ((i : Nat) : Int) = s.current_running := by
        rw [hcr]
        omega
      have hfc : List.find? (fun x => s.stateOf x == ProcessState.READY)
          (i :: (List.range fuel).map (fun k => (i + 1 + k) % s.num_apps)) =
          List.find? (fun x => s.stateOf x == ProcessState.READY)
            ((List.range fuel).map (fun k => (i + 1 + k) % s.num_apps)) :=
        List.find?_cons_of_neg _ hb
      rw [scanLoop, if_neg hrdy, if_neg hbreak, hfc]
      rw [ih ((i + 1) % s.num_apps) (Nat.mod_lt _ hn)]
      refine congrArg (Option.map some)
        (congrArg (List.find? (fun x => s.stateOf x == ProcessState.READY)) ?_)
      apply List.map_congr_left
      intro k _
      rw [Nat.mod_add_mod]

theorem entry_setEntry (s : KState) (k i : Nat) (f : PCB → PCB) :
    (setEntry s k f).entry i =
      if k = i ∧ i < s.pcb.length then f (s.entry k) else s.entry i := by
  show (s.pcb.set k (f (s.entry k))).getD i pcbDefault = _
  rw [getD_set]
  split
  · rfl
  · rfl

theorem stateOf_setEntry (s : KState) (k i : Nat) (f : PCB → PCB) :
    (setEntry s k f).stateOf i =
      if k = i ∧ i < s.pcb.length then (f (s.entry k)).state else s.stateOf i := by
  rw [KState.stateOf, entry_setEntry]
  split
  · rfl
  · rfl

theorem setEntry_len (s : KState) (k : Nat) (f : PCB → PCB) :
    (setEntry s k f).pcb.length = s.pcb.length := List.length_set _ _ _

theorem findNext_ne_none (s : KState)
    (h0 : 0 ≤ s.current_running) (h1 : s.current_running < (s.num_apps : Int)) :
    findNext s ≠ none := by
  rw [findNext_eq_circularFirst s h0 h1]
  simp

theorem countDev_nil : countDev [] = 0 := rfl

theorem countDev_sigStop (w : Nat) (l : List Event) :
    countDev (Event.sigStop w :: l) = countDev l := rfl

theorem countDev_sigCont (w : Nat) (l : List Event) :
    countDev (Event.sigCont w :: l) = countDev l := rfl

theorem countDev_sendPC (w : Nat) (p : Int) (l : List Event) :
    countDev (Event.sendPC w p :: l) = countDev l := rfl

theorem countDev_devStart (l : List Event) :
    countDev (Event.devStart :: l) = countDev l + 1 := by
  rw [countDev, countDev, List.countP_cons]
  rfl

theorem countDev_append (l₁ l₂ : List Event) :
    countDev (l₁ ++ l₂) = countDev l₁ + countDev l₂ := List.countP_append _ _ _
/-- Shorthand for the preemption condition of `schedule` (kernel.c line 360). -/
abbrev preCond (s : KState) : Prop :=
  s.current_running ≠ -1 ∧ s.stateOf s.current_running.toNat = ProcessState.RUNNING

theorem applyPreempt_pos_eq (s : KState) (h : preCond s) :
    applyPreempt s =
      (setEntry s s.current_running.toNat (fun p => { p with state := ProcessState.READY }),
       [Event.sigStop s.current_running.toNat]) := by
  rw [applyPreempt, if_pos h]

theorem applyPreempt_neg_eq (s : KState) (h : ¬ preCond s) : applyPreempt s = (s, []) := by
  rw [applyPreempt, if_neg h]

theorem stateOf_applyPreempt_pos (s : KState) (h : preCond s) (i : Nat) :
    (applyPreempt s).1.stateOf i =
      if s.current_running.toNat = i ∧ i < s.pcb.length then ProcessState.READY
      else s.stateOf i := by
  rw [applyPreempt_pos_eq s h, stateOf_setEntry]

theorem applyPreempt_len (s : KState) : (applyPreempt s).1.pcb.length = s.pcb.length := by
  by_cases h : preCond s
  · rw [applyPreempt_pos_eq s h]
    exact setEntry_len s _ _
  · rw [applyPreempt_neg_eq s h]

theorem applyPreempt_proj (s : KState) :
    (applyPreempt s).1.num_apps = s.num_apps ∧
    (applyPreempt s).1.current_running = s.current_running ∧
    (applyPreempt s).1.bq = s.bq ∧
    (applyPreempt s).1.io_in_progress = s.io_in_progress ∧
    (applyPreempt s).1.serviced = s.serviced := by
  by_cases h : preCond s
  · rw [applyPreempt_pos_eq s h]
    exact ⟨rfl, rfl, rfl, rfl, rfl⟩
  · rw [applyPreempt_neg_eq s h]
    exact ⟨rfl, rfl, rfl, rfl, rfl⟩

theorem stateOf_applySwitch (s : KState) (j i : Nat) :
    (applySwitch s j).stateOf i =
      if j = i ∧ i < s.pcb.length then ProcessState.RUNNING else s.stateOf i := by
  show (setEntry s j (fun p => { p with state := ProcessState.RUNNING })).stateOf i = _
  rw [stateOf_setEntry]

theorem applySwitch_len (s : KState) (j : Nat) :
    (applySwitch s j).pcb.length = s.pcb.length := by
  show (setEntry s j (fun p => { p with state := ProcessState.RUNNING })).pcb.length = _
  exact setEntry_len s _ _

theorem applySwitch_proj (s : KState) (j : Nat) :
    (applySwitch s j).num_apps = s.num_apps ∧
    (applySwitch s j).current_running = (j : Int) ∧
    (applySwitch s j).bq = s.bq ∧
    (applySwitch s j).io_in_progress = s.io_in_progress ∧
    (applySwitch s j).serviced = s.serviced :=
  ⟨rfl, rfl, rfl, rfl, rfl⟩

theorem applyRestore_pos_eq (s : KState) (j : Nat) (h : (s.entry j).saved_pc_valid = true) :
    applyRestore s j =
      (setEntry s j (fun p => { p with saved_pc_valid := false }),
       [Event.sendPC j (s.entry j).saved_pc]) := by
  rw [applyRestore, if_pos h]

theorem applyRestore_neg_eq (s : KState) (j : Nat)
    (h : ¬ (s.entry j).saved_pc_valid = true) : applyRestore s j = (s, []) := by
  rw [applyRestore, if_neg h]

theorem stateOf_applyRestore (s : KState) (j i : Nat) :
    (applyRestore s j).1.stateOf i = s.stateOf i := by
  by_cases h : (s.entry j).saved_pc_valid = true
  · rw [applyRestore_pos_eq s j h, stateOf_setEntry]
    split
    · rename_i hc
      obtain ⟨h1, -⟩ := hc
      subst h1
      rfl
    · rfl
  · rw [applyRestore_neg_eq s j h]

theorem applyRestore_len (s : KState) (j : Nat) :
    (applyRestore s j).1.pcb.length = s.pcb.length := by
  by_cases h : (s.entry j).saved_pc_valid = true
  · rw [applyRestore_pos_eq s j h]
    exact setEntry_len s _ _
  · rw [applyRestore_neg_eq s j h]

theorem applyRestore_proj (s : KState) (j : Nat) :
    (applyRestore s j).1.num_apps = s.num_apps ∧
    (applyRestore s j).1.current_running = s.current_running ∧
    (applyRestore s j).1.bq = s.bq ∧
    (applyRestore s j).1.io_in_progress = s.io_in_progress ∧
    (applyRestore s j).1.serviced = s.serviced := by
  by_cases h : (s.entry j).saved_pc_valid = true
  · rw [applyRestore_pos_eq s j h]
    exact ⟨rfl, rfl, rfl, rfl, rfl⟩
  · rw [applyRestore_neg_eq s j h]
    exact ⟨rfl, rfl, rfl, rfl, rfl⟩

theorem schedSelect_decomp (s : KState) (j : Nat) :
    schedSelect s j =
      ((applyRestore (applySwitch (applyPreempt s).1 j) j).1,
       (applyPreempt s).2 ++ (applyRestore (applySwitch (applyPreempt s).1 j) j).2 ++
         [Event.sigCont j]) := rfl

/-- The whole state change performed by the committed branch of `schedule`:
the chosen entry becomes RUNNING, the preempted entry (when the preemption
branch fires) becomes READY, every other entry keeps its state. -/
theorem stateOf_schedSelect (s : KState) (j i : Nat) :
    (schedSelect s j).1.stateOf i =
      if j = i ∧ i < s.pcb.length then ProcessState.RUNNING
      else if preCond s ∧ s.current_running.toNat = i ∧ i < s.pcb.length then
        ProcessState.READY
      else s.stateOf i := by
  rw [schedSelect_decomp]
  show (applyRestore (applySwitch (applyPreempt s).1 j) j).1.stateOf i = _
  rw [stateOf_applyRestore, stateOf_applySwitch, applyPreempt_len]
  by_cases hpre : preCond s
  · rw [stateOf_applyPreempt_pos s hpre i]
    by_cases hA : j = i ∧ i < s.pcb.length
    · rw [if_pos hA, if_pos hA]
    · rw [if_neg hA, if_neg hA]
      by_cases hB : s.current_running.toNat = i ∧ i < s.pcb.length
      · rw [if_pos hB, if_pos ⟨hpre, hB.1, hB.2⟩]
      · rw [if_neg hB, if_neg (fun hc => hB ⟨hc.2.1, hc.2.2⟩)]
  · have he : (applyPreempt s).1 = s := by rw [applyPreempt_neg_eq s hpre]
    rw [he]
    by_cases hA : j = i ∧ i < s.pcb.length
    · rw [if_pos hA, if_pos hA]
    · rw [if_neg hA, if_neg hA, if_neg (fun hc => hpre hc.1)]

theorem schedSelect_len (s : KState) (j : Nat) :
    (schedSelect s j).1.pcb.length = s.pcb.length := by
  rw [schedSelect_decomp]
  show (applyRestore (applySwitch (applyPreempt s).1 j) j).1.pcb.length = _
  rw [applyRestore_len, applySwitch_len, applyPreempt_len]

theorem schedSelect_proj (s : KState) (j : Nat) :
    (schedSelect s j).1.num_apps = s.num_apps ∧
    (schedSelect s j).1.current_running = (j : Int) ∧
    (schedSelect s j).1.bq = s.bq ∧
    (schedSelect s j).1.io_in_progress = s.io_in_progress ∧
    (schedSelect s j).1.serviced = s.serviced := by
  rw [schedSelect_decomp]
  obtain ⟨r1, r2, r3, r4, r5⟩ := applyRestore_proj (applySwitch (applyPreempt s).1 j) j
  obtain ⟨w1, w2, w3, w4, w5⟩ := applySwitch_proj (applyPreempt s).1 j
  obtain ⟨p1, p2, p3, p4, p5⟩ := applyPreempt_proj s
  exact ⟨by rw [r1, w1, p1], by rw [r2, w2], by rw [r3, w3, p3],
    by rw [r4, w4, p4], by rw [r5, w5, p5]⟩

theorem applyPreempt_countDev (s : KState) : countDev (applyPreempt s).2 = 0 := by
  by_cases h : preCond s
  · rw [applyPreempt_pos_eq s h]
    rfl
  · rw [applyPreempt_neg_eq s h]
    rfl

theorem applyRestore_countDev (s : KState) (j : Nat) :
    countDev (applyRestore s j).2 = 0 := by
  by_cases h : (s.entry j).saved_pc_valid = true
  · rw [applyRestore_pos_eq s j h]
    rfl
  · rw [applyRestore_neg_eq s j h]
    rfl

theorem schedSelect_countDev (s : KState) (j : Nat) :
    countDev (schedSelect s j).2 = 0 := by
  rw [schedSelect_decomp]
  show countDev (_ ++ _ ++ _) = 0
  rw [countDev_append, countDev_append, applyPreempt_countDev,
    applyRestore_countDev (applySwitch (applyPreempt s).1 j) j]
  rfl

/-- Contract of one `schedule` call from any state with a valid
`current_running` whose RUNNING entries all agree with it: the call returns,
touches neither the queue nor the I/O flag, emits no begin-service
notification, keeps `current_running` valid, and either commits a READY entry
as the new unique RUNNING worker or (no READY entry) changes nothing. -/
theorem schedule_spec (s : KState)
    (hlen : s.pcb.length = s.num_apps)
    (h0 : 0 ≤ s.current_running) (h1 : s.current_running < (s.num_apps : Int))
    (huniq : uniqueRunning s) :
    ∃ s' evs, scheduleFn s = some (s', evs) ∧
      s'.num_apps = s.num_apps ∧ s'.pcb.length = s.pcb.length ∧
      s'.bq = s.bq ∧ s'.io_in_progress = s.io_in_progress ∧ s'.serviced = s.serviced ∧
      0 ≤ s'.current_running ∧ s'.current_running < (s.num_apps : Int) ∧
      uniqueRunning s' ∧ countDev evs = 0 ∧
      (s'.stateOf s'.current_running.toNat = ProcessState.RUNNING ∨
        (s' = s ∧ noReady s)) := by
  have hchar := findNext_eq_circularFirst s h0 h1
  have hn : 0 < s.num_apps := by omega
  cases hfc : circularFirst s with
  | none =>
    refine ⟨s, [], ?_, rfl, rfl, rfl, rfl, rfl, h0, h1, huniq, rfl,
      Or.inr ⟨rfl, circularFirst_none_noReady s hn hfc⟩⟩
    rw [scheduleFn, hchar, hfc]
  | some j =>
    obtain ⟨hjn, hjr⟩ := circularFirst_some_props s j hn hfc
    obtain ⟨e1, e2, e3, e4, e5⟩ := schedSelect_proj s j
    refine ⟨(schedSelect s j).1, (schedSelect s j).2, ?_, e1, schedSelect_len s j,
      e3, e4, e5, ?_, ?_, ?_, schedSelect_countDev s j, Or.inl ?_⟩
    · rw [scheduleFn, hchar, hfc]
    · rw [e2]; omega
    · rw [e2]; exact_mod_cast hjn
    · intro i hi hrun
      rw [e1] at hi
      rw [stateOf_schedSelect] at hrun
      rw [e2]
      by_cases hA : j = i ∧ i < s.pcb.length
      · exact_mod_cast hA.1.symm
      · rw [if_neg hA] at hrun
        by_cases hB : preCond s ∧ s.current_running.toNat = i ∧ i < s.pcb.length
        · rw [if_pos hB] at hrun
          cases hrun
        · rw [if_neg hB] at hrun
          have hicr := huniq i hi hrun
          have hi2 : i = s.current_running.toNat := by omega
          exact absurd ⟨⟨by omega, hi2 ▸ hrun⟩, hi2.symm, by omega⟩ hB
    · rw [e2]
      show (schedSelect s j).1.stateOf ((j : Int)).toNat = ProcessState.RUNNING
      rw [show ((j : Int)).toNat = j from rfl]
      rw [stateOf_schedSelect, if_pos ⟨rfl, by omega⟩]

theorem stateOf_setEntry_statePres (s : KState) (k i : Nat) (f : PCB → PCB)
    (hf : ∀ p, (f p).state = p.state) :
    (setEntry s k f).stateOf i = s.stateOf i := by
  rw [stateOf_setEntry]
  split
  · rename_i hc
    obtain ⟨h1, -⟩ := hc
    rw [hf]
    subst h1
    rfl
  · rfl

theorem stateOf_bqSet (s : KState) (b : BQ) (i : Nat) :
    ({ s with bq := b }).stateOf i = s.stateOf i := rfl

theorem stateOf_syscallSave (payload : Option (Int × Char)) (s : KState) (i : Nat) :
    (syscallSave payload s).stateOf i = s.stateOf i := by
  cases payload with
  | none => rfl
  | some pr => exact stateOf_setEntry_statePres s _ i _ (fun p => rfl)

theorem syscallSave_proj (payload : Option (Int × Char)) (s : KState) :
    (syscallSave payload s).num_apps = s.num_apps ∧
    (syscallSave payload s).pcb.length = s.pcb.length ∧
    (syscallSave payload s).current_running = s.current_running ∧
    (syscallSave payload s).bq = s.bq ∧
    (syscallSave payload s).io_in_progress = s.io_in_progress := by
  cases payload with
  | none => exact ⟨rfl, rfl, rfl, rfl, rfl⟩
  | some pr => exact ⟨rfl, setEntry_len s _ _, rfl, rfl, rfl⟩

theorem stateOf_syscallBlock (s : KState) (i : Nat) :
    (syscallBlock s).stateOf i =
      if s.current_running.toNat = i ∧ i < s.pcb.length then ProcessState.BLOCKED
      else s.stateOf i := by
  show (setEntry s _ _).stateOf i = _
  rw [stateOf_setEntry]

theorem syscallBlock_proj (s : KState) :
    (syscallBlock s).num_apps = s.num_apps ∧
    (syscallBlock s).pcb.length = s.pcb.length ∧
    (syscallBlock s).current_running = s.current_running ∧
    (syscallBlock s).bq = s.bq ∧
    (syscallBlock s).io_in_progress = s.io_in_progress :=
  ⟨rfl, setEntry_len s _ _, rfl, rfl, rfl⟩

theorem stateOf_startIoIfFree (s : KState) (i : Nat) :
    (startIoIfFree s).1.stateOf i = s.stateOf i := by
  rw [startIoIfFree]
  by_cases h : s.io_in_progress = false
  · rw [if_pos h]
    by_cases h2 : (dequeue_blocked s.bq).2 ≠ -1
    · rw [if_pos h2]
      show (setEntry { s with bq := (dequeue_blocked s.bq).1 }
          (dequeue_blocked s.bq).2.toNat
          (fun p => { p with io_pending := true })).stateOf i = s.stateOf i
      exact stateOf_setEntry_statePres _ _ i _ (fun p => rfl)
    · rw [if_neg h2]
      rfl
  · rw [if_neg h]

theorem startIoIfFree_proj (s : KState) :
    (startIoIfFree s).1.num_apps = s.num_apps ∧
    (startIoIfFree s).1.pcb.length = s.pcb.length ∧
    (startIoIfFree s).1.current_running = s.current_running := by
  rw [startIoIfFree]
  by_cases h : s.io_in_progress = false
  · rw [if_pos h]
    by_cases h2 : (dequeue_blocked s.bq).2 ≠ -1
    · rw [if_pos h2]
      refine ⟨rfl, ?_, rfl⟩
      show (setEntry { s with bq := (dequeue_blocked s.bq).1 }
          (dequeue_blocked s.bq).2.toNat
          (fun p => { p with io_pending := true })).pcb.length = s.pcb.length
      exact setEntry_len _ _ _
    · rw [if_neg h2]
      exact ⟨rfl, rfl, rfl⟩
  · rw [if_neg h]
    exact ⟨rfl, rfl, rfl⟩

theorem stateOf_syscallPre (payload : Option (Int × Char)) (s : KState) (i : Nat) :
    (syscallPre payload s).1.stateOf i =
      if s.current_running.toNat = i ∧ i < s.pcb.length then ProcessState.BLOCKED
      else s.stateOf i := by
  obtain ⟨v1, v2, v3, v4, v5⟩ := syscallSave_proj payload s
  rw [show (syscallPre payload s).1 =
    (startIoIfFree { syscallBlock (syscallSave payload s) with
      bq := enqueue_blocked (syscallBlock (syscallSave payload s)).bq
        (syscallBlock (syscallSave payload s)).current_running }).1 from rfl]
  rw [stateOf_startIoIfFree, stateOf_bqSet, stateOf_syscallBlock, v2, v3,
    stateOf_syscallSave]

theorem syscallPre_proj (payload : Option (Int × Char)) (s : KState) :
    (syscallPre payload s).1.num_apps = s.num_apps ∧
    (syscallPre payload s).1.pcb.length = s.pcb.length ∧
    (syscallPre payload s).1.current_running = s.current_running := by
  obtain ⟨v1, v2, v3, v4, v5⟩ := syscallSave_proj payload s
  obtain ⟨w1, w2, w3, w4, w5⟩ := syscallBlock_proj (syscallSave payload s)
  obtain ⟨u1, u2, u3⟩ := startIoIfFree_proj
    { syscallBlock (syscallSave payload s) with
      bq := enqueue_blocked (syscallBlock (syscallSave payload s)).bq
        (syscallBlock (syscallSave payload s)).current_running }
  refine ⟨?_, ?_, ?_⟩
  · rw [show (syscallPre payload s).1.num_apps =
      ({ syscallBlock (syscallSave payload s) with
        bq := enqueue_blocked (syscallBlock (syscallSave payload s)).bq
          (syscallBlock (syscallSave payload s)).current_running } : KState).num_apps
      from u1]
    rw [show ({ syscallBlock (syscallSave payload s) with
      bq := enqueue_blocked (syscallBlock (syscallSave payload s)).bq
        (syscallBlock (syscallSave payload s)).current_running } : KState).num_apps =
      (syscallBlock (syscallSave payload s)).num_apps from rfl]
    rw [w1, v1]
  · rw [show (syscallPre payload s).1.pcb.length =
      ({ syscallBlock (syscallSave payload s) with
        bq := enqueue_blocked (syscallBlock (syscallSave payload s)).bq
          (syscallBlock (syscallSave payload s)).current_running } : KState).pcb.length
      from u2]
    rw [show ({ syscallBlock (syscallSave payload s) with
      bq := enqueue_blocked (syscallBlock (syscallSave payload s)).bq
        (syscallBlock (syscallSave payload s)).current_running } : KState).pcb.length =
      (syscallBlock (syscallSave payload s)).pcb.length from rfl]
    rw [w2, v2]
  · rw [show (syscallPre payload s).1.current_running =
      ({ syscallBlock (syscallSave payload s) with
        bq := enqueue_blocked (syscallBlock (syscallSave payload s)).bq
          (syscallBlock (syscallSave payload s)).current_running } : KState).current_running
      from u3]
    rw [show ({ syscallBlock (syscallSave payload s) with
      bq := enqueue_blocked (syscallBlock (syscallSave payload s)).bq
        (syscallBlock (syscallSave payload s)).current_running } : KState).current_running =
      (syscallBlock (syscallSave payload s)).current_running from rfl]
    rw [w3, v3]

theorem syscallPre_noRunning (payload : Option (Int × Char)) (s : KState)
    (hlen : s.pcb.length = s.num_apps)
    (h0 : 0 ≤ s.current_running) (_h1 : s.current_running < (s.num_apps : Int))
    (huniq : uniqueRunning s) : noRunning (syscallPre payload s).1 := by
  intro i hi hr
  obtain ⟨p1, p2, p3⟩ := syscallPre_proj payload s
  rw [p1] at hi
  rw [stateOf_syscallPre] at hr
  by_cases hc : s.current_running.toNat = i ∧ i < s.pcb.length
  · rw [if_pos hc] at hr
    cases hr
  · rw [if_neg hc] at hr
    have hicr := huniq i hi hr
    exact hc ⟨by omega, by omega⟩

theorem ioScan_run (s : KState) (i : Nat)
    (h : (ioScan s).stateOf i = ProcessState.RUNNING) :
    s.stateOf i = ProcessState.RUNNING := by
  rw [ioScan] at h
  cases hf : (List.range s.num_apps).find?
      (fun i => (s.stateOf i == ProcessState.BLOCKED) && (s.entry i).io_pending) with
  | none => rw [hf] at h; exact h
  | some j =>
    rw [hf] at h
    rw [stateOf_setEntry] at h
    by_cases hc : j = i ∧ i < s.pcb.length
    · rw [if_pos hc] at h
      cases h
    · rw [if_neg hc] at h
      exact h

theorem ioScan_proj (s : KState) :
    (ioScan s).num_apps = s.num_apps ∧
    (ioScan s).pcb.length = s.pcb.length ∧
    (ioScan s).current_running = s.current_running := by
  rw [ioScan]
  cases hf : (List.range s.num_apps).find?
      (fun i => (s.stateOf i == ProcessState.BLOCKED) && (s.entry i).io_pending) with
  | none => exact ⟨rfl, rfl, rfl⟩
  | some j => exact ⟨rfl, setEntry_len s _ _, rfl⟩

theorem stateOf_ioRestart (s : KState) (i : Nat) :
    (ioRestart s).1.stateOf i = s.stateOf i := by
  rw [ioRestart]
  by_cases h : blocked_is_empty s.bq = false
  · rw [if_pos h]
    show (setEntry { s with bq := (dequeue_blocked s.bq).1 }
        (dequeue_blocked s.bq).2.toNat
        (fun p => { p with io_pending := true })).stateOf i = s.stateOf i
    exact stateOf_setEntry_statePres _ _ i _ (fun p => rfl)
  · rw [if_neg h]

theorem ioRestart_proj (s : KState) :
    (ioRestart s).1.num_apps = s.num_apps ∧
    (ioRestart s).1.pcb.length = s.pcb.length ∧
    (ioRestart s).1.current_running = s.current_running := by
  rw [ioRestart]
  by_cases h : blocked_is_empty s.bq = false
  · rw [if_pos h]
    refine ⟨rfl, ?_, rfl⟩
    show (setEntry { s with bq := (dequeue_blocked s.bq).1 }
        (dequeue_blocked s.bq).2.toNat
        (fun p => { p with io_pending := true })).pcb.length = s.pcb.length
    exact setEntry_len _ _ _
  · rw [if_neg h]
    exact ⟨rfl, rfl, rfl⟩

theorem ioPre_run (s : KState) (i : Nat)
    (h : (ioPre s).1.stateOf i = ProcessState.RUNNING) :
    s.stateOf i = ProcessState.RUNNING := by
  rw [show (ioPre s).1 =
    (ioRestart (ioScan { s with io_in_progress := false, serviced := none })).1 from rfl,
    stateOf_ioRestart] at h
  have := ioScan_run { s with io_in_progress := false, serviced := none } i h
  exact this

theorem ioPre_proj (s : KState) :
    (ioPre s).1.num_apps = s.num_apps ∧
    (ioPre s).1.pcb.length = s.pcb.length ∧
    (ioPre s).1.current_running = s.current_running := by
  obtain ⟨a1, a2, a3⟩ :=
    ioRestart_proj (ioScan { s with io_in_progress := false, serviced := none })
  obtain ⟨b1, b2, b3⟩ := ioScan_proj { s with io_in_progress := false, serviced := none }
  exact ⟨by rw [show (ioPre s).1.num_apps = _ from a1, b1],
    by rw [show (ioPre s).1.pcb.length = _ from a2, b2],
    by rw [show (ioPre s).1.current_running = _ from a3, b3]⟩

theorem ioPre_uniq (s : KState) (huniq : uniqueRunning s) :
    uniqueRunning (ioPre s).1 := by
  intro i hi hr
  obtain ⟨p1, p2, p3⟩ := ioPre_proj s
  rw [p1] at hi
  rw [p3]
  exact huniq i hi (ioPre_run s i hr)

theorem uniq_noRunning (s : KState) (h0 : 0 ≤ s.current_running)
    (huniq : uniqueRunning s)
    (hnr : s.stateOf s.current_running.toNat ≠ ProcessState.RUNNING) : noRunning s := by
  intro i hi hr
  have hicr := huniq i hi hr
  have hi2 : i = s.current_running.toNat := by omega
  exact hnr (hi2 ▸ hr)

/-- Every delivered event preserves the scheduler invariant. -/
theorem step_inv (e : Ev) (s s' : KState) (out : List Event)
    (hInv : Inv s) (hstep : step e s = some (s', out)) : Inv s' := by
  obtain ⟨h3, hlen, h0, h1, huniq, hdisj⟩ := hInv
  rw [step.eq_def] at hstep
  by_cases hg : evGuard e s = true
  · rw [if_pos hg] at hstep
    cases e with
    | timer =>
      change scheduleFn s = some (s', out) at hstep
      obtain ⟨s2, evs, heq, g1, g2, g3, g4, g5, g6, g7, g8, g9, g10⟩ :=
        schedule_spec s hlen h0 h1 huniq
      rw [heq] at hstep
      injection hstep with hp
      have hs2 : s2 = s' := congrArg Prod.fst hp
      subst hs2
      refine ⟨by rw [g1]; exact h3, by rw [g2, g1]; exact hlen, g6,
        by rw [g1]; exact g7, g8, ?_⟩
      cases g10 with
      | inl h => exact Or.inl h
      | inr h =>
        rw [h.1]
        exact hdisj
    | syscall payload =>
      change handle_syscall_from_app payload s = some (s', out) at hstep
      obtain ⟨p1, p2, p3⟩ := syscallPre_proj payload s
      have hnrt : noRunning (syscallPre payload s).1 :=
        syscallPre_noRunning payload s hlen h0 h1 huniq
      have huniq2 : uniqueRunning (syscallPre payload s).1 := by
        intro i hi hr
        exact absurd hr (hnrt i hi)
      obtain ⟨s2, evs, heq, g1, g2, g3, g4, g5, g6, g7, g8, g9, g10⟩ :=
        schedule_spec (syscallPre payload s).1 (by rw [p2, p1]; exact hlen)
          (by rw [p3]; exact h0) (by rw [p3, p1]; exact h1) huniq2
      rw [handle_syscall_from_app, heq] at hstep
      change some (s2, Event.sigStop s.current_running.toNat ::
        ((syscallPre payload s).2 ++ evs)) = some (s', out) at hstep
      injection hstep with hp
      have hs2 : s2 = s' := congrArg Prod.fst hp
      subst hs2
      have g7s : s2.current_running < (s.num_apps : Int) := by rw [← p1]; exact g7
      refine ⟨by rw [g1, p1]; exact h3, by rw [g2, p2, g1, p1]; exact hlen, g6,
        by rw [g1, p1]; exact g7s, g8, ?_⟩
      cases g10 with
      | inl h => exact Or.inl h
      | inr h =>
        obtain ⟨hss, hnrd⟩ := h
        rw [hss]
        exact Or.inr ⟨hnrd, hnrt⟩
    | ioComplete =>
      change handle_io_complete s = some (s', out) at hstep
      obtain ⟨p1, p2, p3⟩ := ioPre_proj s
      have huniq2 := ioPre_uniq s huniq
      obtain ⟨s2, evs, heq, g1, g2, g3, g4, g5, g6, g7, g8, g9, g10⟩ :=
        schedule_spec (ioPre s).1 (by rw [p2, p1]; exact hlen)
          (by rw [p3]; exact h0) (by rw [p3, p1]; exact h1) huniq2
      rw [handle_io_complete, heq] at hstep
      change some (s2, (ioPre s).2 ++ evs) = some (s', out) at hstep
      injection hstep with hp
      have hs2 : s2 = s' := congrArg Prod.fst hp
      subst hs2
      have g7s : s2.current_running < (s.num_apps : Int) := by rw [← p1]; exact g7
      refine ⟨by rw [g1, p1]; exact h3, by rw [g2, p2, g1, p1]; exact hlen, g6,
        by rw [g1, p1]; exact g7s, g8, ?_⟩
      cases g10 with
      | inl h => exact Or.inl h
      | inr h =>
        obtain ⟨hss, hnrd⟩ := h
        rw [hss]
        by_cases hrt : (ioPre s).1.stateOf (ioPre s).1.current_running.toNat =
            ProcessState.RUNNING
        · exact Or.inl hrt
        · exact Or.inr ⟨hnrd, uniq_noRunning (ioPre s).1 (by rw [p3]; exact h0)
            huniq2 hrt⟩
  · rw [if_neg hg] at hstep
    cases hstep

/-- Any well-formed event trace preserves the scheduler invariant. -/
theorem runE_inv : ∀ (tr : List Ev) (s s' : KState) (out : List Event),
    Inv s → runE s tr = some (s', out) → Inv s' := by
  intro tr
  induction tr with
  | nil =>
    intro s s' out hInv hrun
    rw [runE] at hrun
    injection hrun with hp
    have hss : s = s' := congrArg Prod.fst hp
    rw [← hss]
    exact hInv
  | cons e rest ih =>
    intro s s' out hInv hrun
    rw [runE] at hrun
    cases hst : step e s with
    | none => rw [hst] at hrun; cases hrun
    | some pr =>
      rw [hst] at hrun
      change (match runE pr.1 rest with
        | none => none
        | some pr2 => some (pr2.1, pr.2 ++ pr2.2)) = some (s', out) at hrun
      cases hrn : runE pr.1 rest with
      | none => rw [hrn] at hrun; cases hrun
      | some pr2 =>
        rw [hrn] at hrun
        change some (pr2.1, pr.2 ++ pr2.2) = some (s', out) at hrun
        injection hrun with hp
        have hInv2 : Inv pr.1 := step_inv e s pr.1 pr.2 hInv (by rw [hst])
        have hss : pr2.1 = s' := congrArg Prod.fst hp
        rw [← hss]
        exact ih pr.1 pr2.1 pr2.2 hInv2 (by rw [hrn])

theorem initState_stateOf (n i : Nat) (hi : i < n) :
    (initState n).stateOf i = ProcessState.READY := by
  show ((List.replicate n pcbDefault).getD i pcbDefault).state = _
  rw [getD_replicate n i pcbDefault pcbDefault hi]
  rfl

theorem initState_len (n : Nat) : (initState n).pcb.length = n := List.length_replicate _ _

theorem initState_findNext (c : Int) (hc3 : 3 ≤ c) :
    findNext (initState c.toNat) = some (some 0) := by
  have hsA : scanStart (initState c.toNat) = 0 := by
    show ((-1 + 1 : Int) % (c.toNat : Int)).toNat = 0
    norm_num
  rw [findNext, hsA]
  rw [show (initState c.toNat).num_apps = c.toNat from rfl]
  obtain ⟨k, hk⟩ : ∃ k, c.toNat = k + 1 := ⟨c.toNat - 1, by omega⟩
  rw [hk]
  rw [scanLoop, if_pos (initState_stateOf (k + 1) 0 (by omega))]

/-- The kernel state right after `main`'s first `schedule()` call, together
with the invariant it establishes: worker 0 is the unique RUNNING entry. -/
theorem boot_spec (c : Int) (hc3 : 3 ≤ c) (hc6 : c ≤ 6) :
    boot c = some (schedSelect (initState c.toNat) 0).1 ∧
      Inv (schedSelect (initState c.toNat) 0).1 := by
  have hm : 3 ≤ c.toNat := by omega
  have hki : kernelInit c = some (initState c.toNat) := by
    rw [kernelInit, if_neg (by omega)]
  have hsf : scheduleFn (initState c.toNat) =
      some (schedSelect (initState c.toNat) 0) := by
    rw [scheduleFn, initState_findNext c hc3]
  constructor
  · rw [boot, hki]
    change (match scheduleFn (initState c.toNat) with
      | none => none
      | some pr => some pr.1) = some (schedSelect (initState c.toNat) 0).1
    rw [hsf]
  · obtain ⟨e1, e2, e3, e4, e5⟩ := schedSelect_proj (initState c.toNat) 0
    have hnum : (schedSelect (initState c.toNat) 0).1.num_apps = c.toNat := by
      rw [e1]
      rfl
    have hlen0 : (schedSelect (initState c.toNat) 0).1.pcb.length = c.toNat := by
      rw [schedSelect_len, initState_len]
    have hpc : ¬ preCond (initState c.toNat) := fun h => h.1 rfl
    refine ⟨by rw [hnum]; exact hm, by rw [hlen0, hnum], by rw [e2]; exact Int.ofNat_nonneg 0,
      by rw [e2, hnum]; exact_mod_cast (show (0 : Nat) < c.toNat by omega), ?_, ?_⟩
    · intro i hi hr
      rw [e1] at hi
      rw [e2]
      rw [stateOf_schedSelect] at hr
      by_cases hA : 0 = i ∧ i < (initState c.toNat).pcb.length
      · exact_mod_cast hA.1.symm
      · rw [if_neg hA, if_neg (fun hc => hpc hc.1)] at hr
        rw [initState_stateOf c.toNat i hi] at hr
        cases hr
    · rw [e2]
      left
      show (schedSelect (initState c.toNat) 0).1.stateOf ((0 : Int)).toNat =
        ProcessState.RUNNING
      rw [show ((0 : Int)).toNat = 0 from rfl]
      rw [stateOf_schedSelect, if_pos ⟨rfl, by rw [initState_len]; omega⟩]

/-- Every reachable state (valid boot followed by a well-formed trace)
satisfies the scheduler invariant. -/
theorem reach_inv (c : Int) (tr : List Ev) (s : KState)
    (hc3 : 3 ≤ c) (hc6 : c ≤ 6) (h : reach c tr = some s) : Inv s := by
  obtain ⟨hb, hInv0⟩ := boot_spec c hc3 hc6
  rw [reach, hb] at h
  change (match runE (schedSelect (initState c.toNat) 0).1 tr with
    | none => none
    | some pr => some pr.1) = some s at h
  cases hrn : runE (schedSelect (initState c.toNat) 0).1 tr with
  | none => rw [hrn] at h; cases h
  | some pr =>
    rw [hrn] at h
    change some pr.1 = some s at h
    injection h with hp
    rw [← hp]
    exact runE_inv tr _ pr.1 pr.2 hInv0 (by rw [hrn])

theorem flagNat_congr (s t : KState) (h : s.io_in_progress = t.io_in_progress) :
    flagNat s = flagNat t := by
  rw [flagNat, flagNat, h]

theorem scheduleFn_io_count (s s' : KState) (evs : List Event)
    (h : scheduleFn s = some (s', evs)) :
    countDev evs = 0 ∧ s'.io_in_progress = s.io_in_progress := by
  rw [scheduleFn] at h
  cases hf : findNext s with
  | none => rw [hf] at h; cases h
  | some r =>
    rw [hf] at h
    cases r with
    | none =>
      change some (s, []) = some (s', evs) at h
      injection h with hp
      have h1 : s = s' := congrArg Prod.fst hp
      have h2 : ([] : List Event) = evs := congrArg Prod.snd hp
      rw [← h1, ← h2]
      exact ⟨rfl, rfl⟩
    | some j =>
      change some (schedSelect s j) = some (s', evs) at h
      injection h with hp
      have h1 : (schedSelect s j).1 = s' := congrArg Prod.fst hp
      have h2 : (schedSelect s j).2 = evs := congrArg Prod.snd hp
      rw [← h1, ← h2]
      exact ⟨schedSelect_countDev s j, (schedSelect_proj s j).2.2.2.1⟩

theorem startIoIfFree_count (s : KState) :
    countDev (startIoIfFree s).2 + flagNat s = flagNat (startIoIfFree s).1 := by
  rw [startIoIfFree]
  by_cases h : s.io_in_progress = false
  · rw [if_pos h]
    by_cases h2 : (dequeue_blocked s.bq).2 ≠ -1
    · rw [if_pos h2]
      show countDev [Event.devStart] + flagNat s = 1
      rw [flagNat, h]
      rfl
    · rw [if_neg h2]
      show countDev [] + flagNat s = flagNat { s with bq := (dequeue_blocked s.bq).1 }
      rw [flagNat, flagNat, h]
      rfl
  · rw [if_neg h]
    show countDev [] + flagNat s = flagNat s
    rw [countDev_nil]
    omega

theorem syscallPre_io3 (payload : Option (Int × Char)) (s : KState) :
    ({ syscallBlock (syscallSave payload s) with
      bq := enqueue_blocked (syscallBlock (syscallSave payload s)).bq
        (syscallBlock (syscallSave payload s)).current_running } : KState).io_in_progress =
      s.io_in_progress := by
  show (syscallBlock (syscallSave payload s)).io_in_progress = s.io_in_progress
  rw [(syscallBlock_proj (syscallSave payload s)).2.2.2.2,
    (syscallSave_proj payload s).2.2.2.2]

theorem syscallPre_count (payload : Option (Int × Char)) (s : KState) :
    countDev (syscallPre payload s).2 + flagNat s = flagNat (syscallPre payload s).1 := by
  have h3 := syscallPre_io3 payload s
  have hkey := startIoIfFree_count
    { syscallBlock (syscallSave payload s) with
      bq := enqueue_blocked (syscallBlock (syscallSave payload s)).bq
        (syscallBlock (syscallSave payload s)).current_running }
  rw [show flagNat { syscallBlock (syscallSave payload s) with
      bq := enqueue_blocked (syscallBlock (syscallSave payload s)).bq
        (syscallBlock (syscallSave payload s)).current_running } = flagNat s from
    flagNat_congr _ _ h3] at hkey
  exact hkey

theorem ioScan_io (s : KState) :
    (ioScan s).io_in_progress = s.io_in_progress := by
  rw [ioScan]
  cases hf : (List.range s.num_apps).find?
      (fun i => (s.stateOf i == ProcessState.BLOCKED) && (s.entry i).io_pending) with
  | none => rfl
  | some j => rfl

theorem ioRestart_count (s : KState) (h : s.io_in_progress = false) :
    countDev (ioRestart s).2 = flagNat (ioRestart s).1 := by
  rw [ioRestart]
  by_cases hq : blocked_is_empty s.bq = false
  · rw [if_pos hq]
    rfl
  · rw [if_neg hq]
    show countDev [] = flagNat s
    rw [countDev_nil, flagNat, h]
    rfl

theorem ioPre_count (s : KState) :
    countDev (ioPre s).2 = flagNat (ioPre s).1 := by
  have hio1 : (ioScan { s with io_in_progress := false, serviced := none }).io_in_progress
      = false := by
    rw [ioScan_io]
  exact ioRestart_count _ hio1

/-- One delivered event changes the outstanding-operation count by exactly
the begin-service notifications it emits minus the completion it consumes:
`countDev out + flagNat s = [e is completion] + flagNat s'`. -/
theorem step_count (e : Ev) (s s' : KState) (out : List Event)
    (h : step e s = some (s', out)) :
    countDev out + flagNat s = (if e = Ev.ioComplete then 1 else 0) + flagNat s' := by
  rw [step.eq_def] at h
  by_cases hg : evGuard e s = true
  · rw [if_pos hg] at h
    cases e with
    | timer =>
      change scheduleFn s = some (s', out) at h
      obtain ⟨hc, hio⟩ := scheduleFn_io_count s s' out h
      rw [hc, if_neg (by intro hh; cases hh), flagNat_congr s' s hio]
    | syscall payload =>
      change handle_syscall_from_app payload s = some (s', out) at h
      rw [handle_syscall_from_app] at h
      cases hsf : scheduleFn (syscallPre payload s).1 with
      | none => rw [hsf] at h; cases h
      | some pr =>
        rw [hsf] at h
        change some (pr.1, Event.sigStop s.current_running.toNat ::
          ((syscallPre payload s).2 ++ pr.2)) = some (s', out) at h
        injection h with hp
        have h1 : pr.1 = s' := congrArg Prod.fst hp
        have h2 : Event.sigStop s.current_running.toNat ::
            ((syscallPre payload s).2 ++ pr.2) = out := congrArg Prod.snd hp
        obtain ⟨hc, hio⟩ := scheduleFn_io_count _ pr.1 pr.2 (by rw [hsf])
        rw [← h2, ← h1, countDev_sigStop, countDev_append, hc,
          if_neg (by intro hh; cases hh), flagNat_congr pr.1 _ hio]
        have := syscallPre_count payload s
        omega
    | ioComplete =>
      change handle_io_complete s = some (s', out) at h
      rw [handle_io_complete] at h
      cases hsf : scheduleFn (ioPre s).1 with
      | none => rw [hsf] at h; cases h
      | some pr =>
        rw [hsf] at h
        change some (pr.1, (ioPre s).2 ++ pr.2) = some (s', out) at h
        injection h with hp
        have h1 : pr.1 = s' := congrArg Prod.fst hp
        have h2 : (ioPre s).2 ++ pr.2 = out := congrArg Prod.snd hp
        obtain ⟨hc, hio⟩ := scheduleFn_io_count _ pr.1 pr.2 (by rw [hsf])
        have hgio : s.io_in_progress = true := hg
        rw [← h2, ← h1, countDev_append, hc, if_pos rfl,
          flagNat_congr pr.1 _ hio]
        have := ioPre_count s
        rw [show flagNat s = 1 from by rw [flagNat, hgio]; rfl]
        omega
  · rw [if_neg hg] at h
    cases h

/-- Begin-service notifications emitted along a whole trace: completions
consumed plus the operation still outstanding at the end. -/
theorem runE_count : ∀ (tr : List Ev) (s s' : KState) (out : List Event),
    runE s tr = some (s', out) →
    countDev out + flagNat s = countComp tr + flagNat s' := by
  intro tr
  induction tr with
  | nil =>
    intro s s' out hrun
    rw [runE] at hrun
    injection hrun with hp
    have h1 : s = s' := congrArg Prod.fst hp
    have h2 : ([] : List Event) = out := congrArg Prod.snd hp
    rw [← h1, ← h2]
    rfl
  | cons e rest ih =>
    intro s s' out hrun
    rw [runE] at hrun
    cases hst : step e s with
    | none => rw [hst] at hrun; cases hrun
    | some pr =>
      rw [hst] at hrun
      change (match runE pr.1 rest with
        | none => none
        | some pr2 => some (pr2.1, pr.2 ++ pr2.2)) = some (s', out) at hrun
      cases hrn : runE pr.1 rest with
      | none => rw [hrn] at hrun; cases hrun
      | some pr2 =>
        rw [hrn] at hrun
        change some (pr2.1, pr.2 ++ pr2.2) = some (s', out) at hrun
        injection hrun with hp
        have h1 : pr2.1 = s' := congrArg Prod.fst hp
        have h2 : pr.2 ++ pr2.2 = out := congrArg Prod.snd hp
        have hsc := step_count e s pr.1 pr.2 (by rw [hst])
        have hrc := ih pr.1 pr2.1 pr2.2 (by rw [hrn])
        have hcc : countComp (e :: rest) = (if e = Ev.ioComplete then 1 else 0) +
            countComp rest := by
          rw [countComp, countComp, List.countP_cons]
          by_cases he : e = Ev.ioComplete
          · rw [if_pos he, he]
            simp only [beq_self_eq_true]
            rw [if_pos trivial]
            omega
          · rw [if_neg he]
            have hb : (e == Ev.ioComplete) = false := by
              simp only [beq_eq_false_iff_ne, ne_eq]
              exact he
            rw [hb]
            rw [if_neg Bool.false_ne_true]
            omega
        rw [← h2, ← h1, countDev_append, hcc]
        omega

theorem kernelInit_some (c : Int) (si : KState) (h : kernelInit c = some si) :
    si = initState c.toNat := by
  rw [kernelInit] at h
  by_cases hc : c < 3 ∨ 6 < c
  · rw [if_pos hc] at h
    cases h
  · rw [if_neg hc] at h
    injection h with hp
    exact hp.symm

theorem boot_io (c : Int) (s0 : KState) (h : boot c = some s0) :
    s0.io_in_progress = false := by
  rw [boot] at h
  cases hki : kernelInit c with
  | none => rw [hki] at h; cases h
  | some si =>
    rw [hki] at h
    change (match scheduleFn si with
      | none => none
      | some pr => some pr.1) = some s0 at h
    cases hsf : scheduleFn si with
    | none => rw [hsf] at h; cases h
    | some pr =>
      rw [hsf] at h
      change some pr.1 = some s0 at h
      injection h with hp
      obtain ⟨-, hio⟩ := scheduleFn_io_count si pr.1 pr.2 (by rw [hsf])
      rw [← hp, hio, kernelInit_some c si hki]
      rfl

theorem saved_setEntry_pres (s : KState) (k i : Nat) (f : PCB → PCB)
    (h1 : ∀ p, (f p).saved_pc = p.saved_pc)
    (h2 : ∀ p, (f p).saved_pc_valid = p.saved_pc_valid) :
    ((setEntry s k f).entry i).saved_pc = (s.entry i).saved_pc ∧
    ((setEntry s k f).entry i).saved_pc_valid = (s.entry i).saved_pc_valid := by
  rw [entry_setEntry]
  split
  · rename_i hc
    obtain ⟨hk, -⟩ := hc
    subst hk
    exact ⟨h1 _, h2 _⟩
  · exact ⟨rfl, rfl⟩

theorem saved_startIoIfFree (s : KState) (i : Nat) :
    (((startIoIfFree s).1).entry i).saved_pc = (s.entry i).saved_pc ∧
    (((startIoIfFree s).1).entry i).saved_pc_valid = (s.entry i).saved_pc_valid := by
  rw [startIoIfFree]
  by_cases h : s.io_in_progress = false
  · rw [if_pos h]
    by_cases h2 : (dequeue_blocked s.bq).2 ≠ -1
    · rw [if_pos h2]
      show ((setEntry { s with bq := (dequeue_blocked s.bq).1 }
          (dequeue_blocked s.bq).2.toNat (fun p => { p with io_pending := true })).entry
            i).saved_pc = (s.entry i).saved_pc ∧
        ((setEntry { s with bq := (dequeue_blocked s.bq).1 }
          (dequeue_blocked s.bq).2.toNat (fun p => { p with io_pending := true })).entry
            i).saved_pc_valid = (s.entry i).saved_pc_valid
      exact saved_setEntry_pres { s with bq := (dequeue_blocked s.bq).1 } _ i _
        (fun p => rfl) (fun p => rfl)
    · rw [if_neg h2]
      exact ⟨rfl, rfl⟩
  · rw [if_neg h]
    exact ⟨rfl, rfl⟩

/-- Saved-context fields survive the blocking step of the syscall handler. -/
theorem saved_syscallBlock (s : KState) (i : Nat) :
    ((syscallBlock s).entry i).saved_pc = (s.entry i).saved_pc ∧
    ((syscallBlock s).entry i).saved_pc_valid = (s.entry i).saved_pc_valid := by
  show ((setEntry s s.current_running.toNat
      (fun p => { p with state := ProcessState.BLOCKED, io_pending := true })).entry
        i).saved_pc = (s.entry i).saved_pc ∧
    ((setEntry s s.current_running.toNat
      (fun p => { p with state := ProcessState.BLOCKED, io_pending := true })).entry
        i).saved_pc_valid = (s.entry i).saved_pc_valid
  exact saved_setEntry_pres s _ i _ (fun p => rfl) (fun p => rfl)

/-- The context-save step records the payload in the current worker's entry
(kernel.c lines 212-215). -/
theorem saved_syscallSave_self (pcv : Int) (op : Char) (s : KState)
    (hcr : s.current_running.toNat < s.pcb.length) :
    ((syscallSave (some (pcv, op)) s).entry s.current_running.toNat).saved_pc = pcv ∧
    ((syscallSave (some (pcv, op)) s).entry
      s.current_running.toNat).saved_pc_valid = true := by
  show ((setEntry s s.current_running.toNat
      (fun p => { p with saved_pc := pcv, syscall_param := op, saved_pc_valid := true })).entry
        s.current_running.toNat).saved_pc = pcv ∧
    ((setEntry s s.current_running.toNat
      (fun p => { p with saved_pc := pcv, syscall_param := op, saved_pc_valid := true })).entry
        s.current_running.toNat).saved_pc_valid = true
  rw [entry_setEntry, if_pos ⟨rfl, hcr⟩]
  exact ⟨rfl, rfl⟩

/-- The recording step of the syscall handler: just before the final
`schedule()` call, the current worker's entry carries the saved program
counter and the valid flag (kernel.c lines 212-215). -/
theorem syscallPre_entry_cr (pcv : Int) (op : Char) (s : KState)
    (hcr : s.current_running.toNat < s.pcb.length) :
    ((syscallPre (some (pcv, op)) s).1.entry s.current_running.toNat).saved_pc = pcv ∧
    ((syscallPre (some (pcv, op)) s).1.entry
      s.current_running.toNat).saved_pc_valid = true := by
  have h1 := saved_syscallSave_self pcv op s hcr
  have h2 := saved_syscallBlock (syscallSave (some (pcv, op)) s) s.current_running.toNat
  have h4 := saved_startIoIfFree
    { syscallBlock (syscallSave (some (pcv, op)) s) with
      bq := enqueue_blocked (syscallBlock (syscallSave (some (pcv, op)) s)).bq
        (syscallBlock (syscallSave (some (pcv, op)) s)).current_running }
    s.current_running.toNat
  constructor
  · show ((startIoIfFree
        { syscallBlock (syscallSave (some (pcv, op)) s) with
          bq := enqueue_blocked (syscallBlock (syscallSave (some (pcv, op)) s)).bq
            (syscallBlock (syscallSave (some (pcv, op)) s)).current_running }).1.entry
        s.current_running.toNat).saved_pc = pcv
    rw [h4.1]
    show ((syscallBlock (syscallSave (some (pcv, op)) s)).entry
      s.current_running.toNat).saved_pc = pcv
    rw [h2.1]
    exact h1.1
  · show ((startIoIfFree
        { syscallBlock (syscallSave (some (pcv, op)) s) with
          bq := enqueue_blocked (syscallBlock (syscallSave (some (pcv, op)) s)).bq
            (syscallBlock (syscallSave (some (pcv, op)) s)).current_running }).1.entry
        s.current_running.toNat).saved_pc_valid = true
    rw [h4.2]
    show ((syscallBlock (syscallSave (some (pcv, op)) s)).entry
      s.current_running.toNat).saved_pc_valid = true
    rw [h2.2]
    exact h1.2

theorem entry_applyRestore_other (s : KState) (j i : Nat) (hne : j ≠ i) :
    ((applyRestore s j).1).entry i = s.entry i := by
  by_cases h : (s.entry j).saved_pc_valid = true
  · rw [applyRestore_pos_eq s j h, entry_setEntry, if_neg (fun hc => hne hc.1)]
  · rw [applyRestore_neg_eq s j h]

theorem saved_applyPreempt (s : KState) (i : Nat) :
    (((applyPreempt s).1).entry i).saved_pc = (s.entry i).saved_pc ∧
    (((applyPreempt s).1).entry i).saved_pc_valid = (s.entry i).saved_pc_valid := by
  by_cases h : preCond s
  · rw [applyPreempt_pos_eq s h]
    exact saved_setEntry_pres s _ i _ (fun p => rfl) (fun p => rfl)
  · rw [applyPreempt_neg_eq s h]
    exact ⟨rfl, rfl⟩

theorem saved_applySwitch (s : KState) (j i : Nat) :
    ((applySwitch s j).entry i).saved_pc = (s.entry i).saved_pc ∧
    ((applySwitch s j).entry i).saved_pc_valid = (s.entry i).saved_pc_valid := by
  show ((setEntry s j (fun p => { p with state := ProcessState.RUNNING })).entry
      i).saved_pc = (s.entry i).saved_pc ∧
    ((setEntry s j (fun p => { p with state := ProcessState.RUNNING })).entry
      i).saved_pc_valid = (s.entry i).saved_pc_valid
  exact saved_setEntry_pres s j i _ (fun p => rfl) (fun p => rfl)

/-- Entries other than the selected one keep their saved context across the
committed branch of `schedule`. -/
theorem schedSelect_saved_other (s : KState) (j i : Nat) (hne : j ≠ i) :
    (((schedSelect s j).1).entry i).saved_pc = (s.entry i).saved_pc ∧
    (((schedSelect s j).1).entry i).saved_pc_valid = (s.entry i).saved_pc_valid := by
  rw [schedSelect_decomp]
  show (((applyRestore (applySwitch (applyPreempt s).1 j) j).1).entry i).saved_pc = _ ∧ _
  rw [entry_applyRestore_other _ j i hne]
  obtain ⟨w1, w2⟩ := saved_applySwitch (applyPreempt s).1 j i
  obtain ⟨p1, p2⟩ := saved_applyPreempt s i
  exact ⟨by rw [w1, p1], by rw [w2, p2]⟩

/-- The context round-trip inside the committed branch of `schedule`: when
the chosen worker holds a valid saved program counter, the emitted actions
are the preemption signal, then the program-counter write, then the resume
signal, and afterwards the valid flag is cleared (the counter itself stays
recorded). -/
theorem schedSelect_roundtrip (s : KState) (j : Nat) (hjl : j < s.pcb.length)
    (hnp : ¬ (preCond s ∧ s.current_running.toNat = j))
    (hv : (s.entry j).saved_pc_valid = true) :
    (schedSelect s j).2 = (applyPreempt s).2 ++
      [Event.sendPC j (s.entry j).saved_pc, Event.sigCont j] ∧
    (((schedSelect s j).1).entry j).saved_pc_valid = false ∧
    (((schedSelect s j).1).entry j).saved_pc = (s.entry j).saved_pc := by
  have hpj : ((applyPreempt s).1).entry j = s.entry j := by
    by_cases hpre : preCond s
    · rw [applyPreempt_pos_eq s hpre, entry_setEntry,
        if_neg (fun hc => hnp ⟨hpre, hc.1⟩)]
    · rw [applyPreempt_neg_eq s hpre]
  have hswl : j < (applyPreempt s).1.pcb.length := by
    rw [applyPreempt_len]
    exact hjl
  have hsw : (applySwitch (applyPreempt s).1 j).entry j =
      { (applyPreempt s).1.entry j with state := ProcessState.RUNNING } := by
    show (setEntry (applyPreempt s).1 j
      (fun p => { p with state := ProcessState.RUNNING })).entry j =
      { (applyPreempt s).1.entry j with state := ProcessState.RUNNING }
    rw [entry_setEntry, if_pos ⟨rfl, hswl⟩]
  have hswv : ((applySwitch (applyPreempt s).1 j).entry j).saved_pc_valid = true := by
    rw [hsw, hpj]
    exact hv
  have hswp : ((applySwitch (applyPreempt s).1 j).entry j).saved_pc =
      (s.entry j).saved_pc := by
    rw [hsw, hpj]
  have hres := applyRestore_pos_eq (applySwitch (applyPreempt s).1 j) j hswv
  refine ⟨?_, ?_, ?_⟩
  · rw [schedSelect_decomp]
    show (applyPreempt s).2 ++
      (applyRestore (applySwitch (applyPreempt s).1 j) j).2 ++ [Event.sigCont j] = _
    rw [hres]
    show (applyPreempt s).2 ++ [Event.sendPC j
      ((applySwitch (applyPreempt s).1 j).entry j).saved_pc] ++ [Event.sigCont j] = _
    rw [hswp, List.append_assoc]
    rfl
  · rw [schedSelect_decomp]
    show ((applyRestore (applySwitch (applyPreempt s).1 j) j).1.entry
      j).saved_pc_valid = false
    rw [hres]
    show ((setEntry (applySwitch (applyPreempt s).1 j) j _).entry j).saved_pc_valid
      = false
    rw [entry_setEntry, if_pos ⟨rfl, by rw [applySwitch_len]; exact hswl⟩]
  · rw [schedSelect_decomp]
    show ((applyRestore (applySwitch (applyPreempt s).1 j) j).1.entry j).saved_pc = _
    rw [hres]
    show ((setEntry (applySwitch (applyPreempt s).1 j) j _).entry j).saved_pc = _
    rw [entry_setEntry, if_pos ⟨rfl, by rw [applySwitch_len]; exact hswl⟩]
    exact hswp

theorem countSend_applyPreempt (s : KState) (j : Nat) :
    countSend j (applyPreempt s).2 = 0 := by
  by_cases h : preCond s
  · rw [applyPreempt_pos_eq s h]
    rfl
  · rw [applyPreempt_neg_eq s h]
    rfl

/-- C1: the claim says that whenever the I/O-complete handler fires, exactly
one worker is BLOCKED with `ioPending` — the serviced one — and the handler
unblocks exactly that worker.  The code violates this: in the reachable state
below (3 workers; timer, timer, syscall from worker 2, syscall from worker 0,
then the completion of worker 2's device operation) the device is servicing
worker 2 while workers 0 and 2 are both BLOCKED with `io_pending`, and the
handler's lowest-index-first scan unblocks worker 0 — worker 2, the serviced
one, stays BLOCKED with `io_pending` still set. -/
theorem C1_wrong_worker_eval :
    (reach 3 [Ev.timer, Ev.timer, Ev.syscall (some (5, 'R')),
      Ev.syscall (some (5, 'R'))]).map
      (fun s => (s.serviced, s.io_in_progress,
        (List.range 3).filter (fun i => (s.stateOf i == ProcessState.BLOCKED) &&
          (s.entry i).io_pending),
        (step Ev.ioComplete s).map (fun r => (r.1.stateOf 2, (r.1.entry 2).io_pending,
          r.1.stateOf 0)))) =
    some (some 2, true, [0, 2],
      some (ProcessState.BLOCKED, true, ProcessState.RUNNING)) := by
  rfl

/-- C2: the Scheduler selects the next worker by scanning circularly starting
immediately after `current_running` and wrapping; the first READY entry wins,
and if no worker is READY the call is a no-op — state (table, queue, globals)
unchanged and no signal sent. -/
theorem C2_schedule_contract :
    ∀ s : KState, s.pcb.length = s.num_apps →
      0 ≤ s.current_running → s.current_running < (s.num_apps : Int) →
      findNext s = some (circularFirst s) ∧
      (circularFirst s = none → scheduleFn s = some (s, [])) ∧
      (∀ j, circularFirst s = some j →
        scheduleFn s = some (schedSelect s j) ∧
        (schedSelect s j).1.current_running = (j : Int) ∧
        (schedSelect s j).1.stateOf j = ProcessState.RUNNING) := by
  intro s hlen h0 h1
  have hchar := findNext_eq_circularFirst s h0 h1
  refine ⟨hchar, ?_, ?_⟩
  · intro hnone
    rw [scheduleFn, hchar, hnone]
  · intro j hj
    obtain ⟨hjn, hjr⟩ := circularFirst_some_props s j (by omega) hj
    refine ⟨by rw [scheduleFn, hchar, hj], (schedSelect_proj s j).2.1, ?_⟩
    rw [stateOf_schedSelect, if_pos ⟨rfl, by omega⟩]

theorem C2_schedule_contract_witness :
    findNext idleState3 = some (circularFirst idleState3) ∧
    scheduleFn idleState3 = some (idleState3, []) := by
  have h := C2_schedule_contract idleState3 (by decide) (by decide) (by decide)
  exact ⟨h.1, h.2.1 (by decide)⟩

/-- C3: at most one device operation is outstanding at any time — along every
reachable run, the number of begin-I/O-service notifications sent equals the
number of completion interrupts received plus the (0 or 1) operation still
in flight, so a second concurrent device operation is never started. -/
theorem C3_device_exclusive :
    ∀ (c : Int) (s0 s : KState) (tr : List Ev) (out : List Event),
      boot c = some s0 → runE s0 tr = some (s, out) →
      countDev out = countComp tr + flagNat s := by
  intro c s0 s tr out hb hrun
  have h0 := boot_io c s0 hb
  have h := runE_count tr s0 s out hrun
  rw [show flagNat s0 = 0 from by rw [flagNat, h0]; rfl] at h
  omega

theorem C3_device_exclusive_witness :
    countDev outSyscall3 =
      countComp [Ev.syscall (some (5, 'R'))] + flagNat afterSyscallState3 :=
  C3_device_exclusive 3 bootState3 afterSyscallState3 [Ev.syscall (some (5, 'R'))]
    outSyscall3 (by decide) (by decide)

/-- C4: a worker whose I/O request is recorded with program counter `p` has
`p` written into its entry by the syscall handler, and the next time the
Scheduler selects that worker it writes exactly the value `p` to the worker's
resume pipe exactly once, immediately before the resume signal, clearing
`saved_pc_valid`; the flags of all other workers are untouched. -/
theorem C4_context_roundtrip :
    (∀ (s : KState) (pcv : Int) (op : Char) (s' : KState) (out : List Event),
      s.pcb.length = s.num_apps →
      step (Ev.syscall (some (pcv, op))) s = some (s', out) →
      (s'.entry s.current_running.toNat).saved_pc = pcv ∧
      (s'.entry s.current_running.toNat).saved_pc_valid = true) ∧
    (∀ (s : KState) (j : Nat) (p : Int),
      s.pcb.length = s.num_apps →
      0 ≤ s.current_running → s.current_running < (s.num_apps : Int) →
      findNext s = some (some j) →
      (s.entry j).saved_pc_valid = true → (s.entry j).saved_pc = p →
      scheduleFn s = some ((schedSelect s j).1,
        (applyPreempt s).2 ++ [Event.sendPC j p, Event.sigCont j]) ∧
      countSend j (applyPreempt s).2 = 0 ∧
      ((schedSelect s j).1.entry j).saved_pc_valid = false ∧
      (∀ i, i ≠ j → ((schedSelect s j).1.entry i).saved_pc_valid =
        (s.entry i).saved_pc_valid)) := by
  constructor
  · intro s pcv op s' out hlen hstep
    rw [step.eq_def] at hstep
    by_cases hg : evGuard (Ev.syscall (some (pcv, op))) s = true
    · rw [if_pos hg] at hstep
      have hg2 : (decide (0 ≤ s.current_running ∧
          s.current_running < (s.num_apps : Int)) &&
          (s.stateOf s.current_running.toNat == ProcessState.RUNNING)) = true := hg
      rw [Bool.and_eq_true, decide_eq_true_eq] at hg2
      obtain ⟨⟨hga1, hga2⟩, -⟩ := hg2
      have hcr : s.current_running.toNat < s.pcb.length := by rw [hlen]; omega
      change handle_syscall_from_app (some (pcv, op)) s = some (s', out) at hstep
      rw [handle_syscall_from_app] at hstep
      obtain ⟨p1, p2, p3⟩ := syscallPre_proj (some (pcv, op)) s
      cases hsf : scheduleFn (syscallPre (some (pcv, op)) s).1 with
      | none => rw [hsf] at hstep; cases hstep
      | some pr =>
        rw [hsf] at hstep
        change some (pr.1, Event.sigStop s.current_running.toNat ::
          ((syscallPre (some (pcv, op)) s).2 ++ pr.2)) = some (s', out) at hstep
        injection hstep with hp
        have h1 : pr.1 = s' := congrArg Prod.fst hp
        have hrec := syscallPre_entry_cr pcv op s hcr
        have hval : 0 ≤ (syscallPre (some (pcv, op)) s).1.current_running := by
          rw [p3]; exact hga1
        have hval2 : (syscallPre (some (pcv, op)) s).1.current_running <
            ((syscallPre (some (pcv, op)) s).1.num_apps : Int) := by
          rw [p3, p1]; exact hga2
        have hchar := findNext_eq_circularFirst _ hval hval2
        rw [scheduleFn, hchar] at hsf
        cases hcf : circularFirst (syscallPre (some (pcv, op)) s).1 with
        | none =>
          rw [hcf] at hsf
          change some ((syscallPre (some (pcv, op)) s).1, []) = some pr at hsf
          injection hsf with hpr
          rw [← h1, ← hpr]
          exact hrec
        | some j =>
          rw [hcf] at hsf
          change some (schedSelect (syscallPre (some (pcv, op)) s).1 j) = some pr at hsf
          injection hsf with hpr
          have hn0 : 0 < (syscallPre (some (pcv, op)) s).1.num_apps := by
            rw [p1]; omega
          obtain ⟨hjn, hjr⟩ := circularFirst_some_props _ j hn0 hcf
          have hblocked : (syscallPre (some (pcv, op)) s).1.stateOf
              s.current_running.toNat = ProcessState.BLOCKED := by
            rw [stateOf_syscallPre, if_pos ⟨rfl, hcr⟩]
          have hne : j ≠ s.current_running.toNat := by
            intro hjeq
            rw [hjeq] at hjr
            rw [hjr] at hblocked
            cases hblocked
          obtain ⟨hsp, hsv⟩ := schedSelect_saved_other
            (syscallPre (some (pcv, op)) s).1 j s.current_running.toNat hne
          rw [← h1, ← hpr]
          exact ⟨by rw [hsp]; exact hrec.1, by rw [hsv]; exact hrec.2⟩
    · rw [if_neg hg] at hstep
      cases hstep
  · intro s j p hlen h0 h1 hfn hv hp
    have hchar := findNext_eq_circularFirst s h0 h1
    rw [hchar] at hfn
    injection hfn with hcf
    have hn0 : 0 < s.num_apps := by omega
    obtain ⟨hjn, hjr⟩ := circularFirst_some_props s j hn0 hcf
    have hjl : j < s.pcb.length := by omega
    have hnp : ¬ (preCond s ∧ s.current_running.toNat = j) := by
      rintro ⟨hpc, hceq⟩
      rw [← hceq] at hjr
      rw [hpc.2] at hjr
      cases hjr
    obtain ⟨hev, hvf, hpcq⟩ := schedSelect_roundtrip s j hjl hnp hv
    refine ⟨?_, countSend_applyPreempt s j, hvf, ?_⟩
    · have h2 : (schedSelect s j).2 = (applyPreempt s).2 ++
          [Event.sendPC j p, Event.sigCont j] := by
        rw [hev, hp]
      rw [scheduleFn, hchar, hcf]
      show some (schedSelect s j) =
        some ((schedSelect s j).1, (applyPreempt s).2 ++
          [Event.sendPC j p, Event.sigCont j])
      rw [show schedSelect s j = ((schedSelect s j).1, (schedSelect s j).2) from rfl, h2]
    · intro i hne
      exact (schedSelect_saved_other s j i (fun h => hne h.symm)).2

theorem C4_context_roundtrip_witness :
    ((afterSyscallState3.entry 0).saved_pc = 5 ∧
      (afterSyscallState3.entry 0).saved_pc_valid = true) ∧
    scheduleFn ctxState3 = some ((schedSelect ctxState3 1).1,
      (applyPreempt ctxState3).2 ++ [Event.sendPC 1 7, Event.sigCont 1]) ∧
    ((schedSelect ctxState3 1).1.entry 1).saved_pc_valid = false :=
  ⟨C4_context_roundtrip.1 bootState3 5 'R' afterSyscallState3 outSyscall3
      (by decide) (by decide),
   (C4_context_roundtrip.2 ctxState3 1 7 (by decide) (by decide) (by decide)
      (by decide) (by decide) (by decide)).1,
   (C4_context_roundtrip.2 ctxState3 1 7 (by decide) (by decide) (by decide)
      (by decide) (by decide) (by decide)).2.2.1⟩

/-- C5 (counterexample): the claim allows k = numWorkers = 6, but the
circular buffer with the `front == rear`-is-empty convention holds at most 5
elements: after enqueuing the six distinct indices 0..5 the queue wraps to
the empty configuration, every dequeue returns the sentinel -1 and the
elements are lost, instead of returning 0..5 in order. -/
theorem C5_capacity_counterexample :
    ([0, 1, 2, 3, 4, 5] : List Int).Nodup ∧
    (dequeueAll (enqueueAll BQ.init [0, 1, 2, 3, 4, 5]) 6).2 =
      [-1, -1, -1, -1, -1, -1] ∧
    (dequeue_blocked (enqueueAll BQ.init [0, 1, 2, 3, 4, 5])).2 = -1 := by
  decide

/-- C5 (amended): the Blocked Queue is a FIFO of capacity 5 =
MAX_PROCESSES - 1: for every sequence of at most 5 distinct worker indices,
enqueuing them all and then dequeuing as many times returns exactly those
indices in enqueue order, and dequeue on an empty queue returns -1. -/
theorem C5_fifo_bounded :
    (∀ l : List Int, l.Nodup → l.length ≤ 5 →
      (dequeueAll (enqueueAll BQ.init l) l.length).2 = l) ∧
    (∀ q : BQ, q.front = q.rear → (dequeue_blocked q).2 = -1) := by
  constructor
  · intro l _ hl
    have hwf : bqWF BQ.init := by
      refine ⟨by decide, by decide, by decide⟩
    obtain ⟨g1, g2, g3⟩ := enqueueAll_spec l BQ.init hwf
      (by rw [show bqSize BQ.init = 0 from rfl]; omega)
    have hsz : bqSize (enqueueAll BQ.init l) = l.length := by
      rw [g2, show bqSize BQ.init = 0 from rfl]
      omega
    rw [dequeueAll_spec l.length (enqueueAll BQ.init l) g1 hsz, g3,
      show bqList BQ.init = [] from rfl, List.nil_append]
  · intro q h
    rw [bq_dequeue_empty_spec q h]

theorem C5_fifo_bounded_witness :
    (dequeueAll (enqueueAll BQ.init [3, 1, 4]) 3).2 = [3, 1, 4] ∧
    (dequeue_blocked BQ.init).2 = -1 :=
  ⟨C5_fifo_bounded.1 [3, 1, 4] (by decide) (by decide),
   C5_fifo_bounded.2 BQ.init rfl⟩

/-- C6 (counterexample): the claim says a RUNNING worker is paused and
demoted to READY before the new worker is chosen, so that it is re-selectable
and, as the only READY candidate, is selected again.  In the reachable state
below (worker 2 RUNNING, workers 0 and 1 BLOCKED) a timer interrupt leaves
the state completely unchanged and emits no event at all: the worker is
never paused, never demoted to READY and never re-selected — the scan treats
the still-RUNNING worker as not READY and the call is a no-op. -/
theorem C6_preemption_counterexample :
    (reach 3 [Ev.syscall (some (5, 'R')), Ev.syscall (some (5, 'R'))]).map
      (fun s => (s.current_running, s.stateOf 2, step Ev.timer s == some (s, []))) =
    some (2, ProcessState.RUNNING, true) := by
  decide

/-- C6 (amended): the selection scan treats the still-RUNNING current worker
as not READY.  When no other worker is READY, `schedule` is a no-op and the
worker simply remains RUNNING without being paused.  When the scan does find
a READY worker, the RUNNING worker is paused (the SIGSTOP is the first
emitted action) and demoted to READY as part of the switch, after the
successor has already been chosen. -/
theorem C6_preemption_amended :
    ∀ s : KState, s.pcb.length = s.num_apps →
      0 ≤ s.current_running → s.current_running < (s.num_apps : Int) →
      s.stateOf s.current_running.toNat = ProcessState.RUNNING →
      (findNext s = some none → scheduleFn s = some (s, [])) ∧
      (∀ j, findNext s = some (some j) →
        j ≠ s.current_running.toNat ∧
        scheduleFn s = some (schedSelect s j) ∧
        (schedSelect s j).2.head? = some (Event.sigStop s.current_running.toNat) ∧
        (schedSelect s j).1.stateOf s.current_running.toNat = ProcessState.READY ∧
        (schedSelect s j).1.stateOf j = ProcessState.RUNNING ∧
        (schedSelect s j).1.current_running = (j : Int)) := by
  intro s hlen h0 h1 hrun
  have hchar := findNext_eq_circularFirst s h0 h1
  constructor
  · intro hnone
    rw [scheduleFn, hnone]
  · intro j hsome
    rw [hchar] at hsome
    injection hsome with hcf
    have hn0 : 0 < s.num_apps := by omega
    obtain ⟨hjn, hjr⟩ := circularFirst_some_props s j hn0 hcf
    have hne : j ≠ s.current_running.toNat := by
      intro he
      rw [he, hrun] at hjr
      cases hjr
    have hpre : preCond s := ⟨by omega, hrun⟩
    refine ⟨hne, by rw [scheduleFn, hchar, hcf], ?_, ?_, ?_,
      (schedSelect_proj s j).2.1⟩
    · have he2 : (schedSelect s j).2 = (applyPreempt s).2 ++
          (applyRestore (applySwitch (applyPreempt s).1 j) j).2 ++
          [Event.sigCont j] := by
        rw [schedSelect_decomp]
      rw [he2, applyPreempt_pos_eq s hpre]
      rfl
    · rw [stateOf_schedSelect, if_neg (fun hc => hne hc.1),
        if_pos ⟨hpre, rfl, by omega⟩]
    · rw [stateOf_schedSelect, if_pos ⟨rfl, by omega⟩]

theorem C6_preemption_amended_witness :
    scheduleFn runState3 = some (runState3, []) ∧
    (schedSelect runReadyState3 0).2.head? = some (Event.sigStop 2) ∧
    (schedSelect runReadyState3 0).1.stateOf 2 = ProcessState.READY := by
  have ha := (C6_preemption_amended runState3 (by decide) (by decide) (by decide)
    (by decide)).1 (by decide)
  have hb := (C6_preemption_amended runReadyState3 (by decide) (by decide)
    (by decide) (by decide)).2 0 (by decide)
  exact ⟨ha, hb.2.2.1, hb.2.2.2.1⟩

/-- C7: in every reachable state after scheduling starts, at most one worker
is RUNNING — exactly one, or none at all when no entry is READY either. -/
theorem C7_single_running :
    ∀ (c : Int) (tr : List Ev) (s : KState), 3 ≤ c → c ≤ 6 →
      reach c tr = some s →
      (∃ i, i < s.num_apps ∧ s.stateOf i = ProcessState.RUNNING ∧
        ∀ j, j < s.num_apps → s.stateOf j = ProcessState.RUNNING → j = i) ∨
      (noRunning s ∧ noReady s) := by
  intro c tr s h3 h6 hr
  obtain ⟨-, hlen, h0, h1, huniq, hdisj⟩ := reach_inv c tr s h3 h6 hr
  cases hdisj with
  | inl h =>
    left
    refine ⟨s.current_running.toNat, by omega, h, ?_⟩
    intro j hj hrj
    have := huniq j hj hrj
    omega
  | inr h =>
    right
    exact ⟨h.2, h.1⟩

theorem C7_single_running_witness :
    (∃ i, i < bootState3.num_apps ∧ bootState3.stateOf i = ProcessState.RUNNING ∧
      ∀ j, j < bootState3.num_apps →
        bootState3.stateOf j = ProcessState.RUNNING → j = i) ∨
    (noRunning bootState3 ∧ noReady bootState3) :=
  C7_single_running 3 [] bootState3 (by decide) (by decide) (by decide)

/-- C8 (counterexample): the claim says the currentRunning pointer is empty
or refers to a RUNNING entry, in particular in the state reached when a
handler has just blocked the running worker and the Scheduler finds no READY
entry.  In exactly that reachable state (3 workers that each issue a syscall
in turn) `current_running` is 2 — not empty — while entry 2 is BLOCKED. -/
theorem C8_stale_pointer_counterexample :
    (reach 3 [Ev.syscall (some (5, 'R')), Ev.syscall (some (5, 'R')),
      Ev.syscall (some (5, 'R'))]).map
      (fun s => (s.current_running, s.stateOf 2)) =
    some (2, ProcessState.BLOCKED) := by
  decide

/-- C8 (amended): after scheduling starts, `current_running` is always a
valid table index (never reset to empty), and it refers to a RUNNING entry
except when no worker is READY or RUNNING at all — when a handler has just
blocked the running worker and the Scheduler found no READY entry,
`current_running` is left pointing at that now-BLOCKED entry. -/
theorem C8_running_pointer_amended :
    ∀ (c : Int) (tr : List Ev) (s : KState), 3 ≤ c → c ≤ 6 →
      reach c tr = some s →
      0 ≤ s.current_running ∧ s.current_running < (s.num_apps : Int) ∧
      (s.stateOf s.current_running.toNat = ProcessState.RUNNING ∨
        (noReady s ∧ noRunning s)) := by
  intro c tr s h3 h6 hr
  obtain ⟨-, -, h0, h1, -, hdisj⟩ := reach_inv c tr s h3 h6 hr
  exact ⟨h0, h1, hdisj⟩

theorem C8_running_pointer_amended_witness :
    0 ≤ bootState3.current_running ∧
    bootState3.current_running < (bootState3.num_apps : Int) ∧
    (bootState3.stateOf bootState3.current_running.toNat = ProcessState.RUNNING ∨
      (noReady bootState3 ∧ noRunning bootState3)) :=
  C8_running_pointer_amended 3 [] bootState3 (by decide) (by decide) (by decide)

/-- C9: a worker count outside [3,6] makes the kernel exit with a fatal
configuration error before any scheduling; for every valid count the process
table has exactly that many entries, all READY with no pending I/O and no
valid saved context, before scheduling starts. -/
theorem C9_startup_contract :
    ∀ c : Int,
      ((c < 3 ∨ 6 < c) → kernelInit c = none) ∧
      (3 ≤ c → c ≤ 6 →
        kernelInit c = some (initState c.toNat) ∧
        ((initState c.toNat).pcb.length : Int) = c ∧
        ∀ p ∈ (initState c.toNat).pcb,
          p.state = ProcessState.READY ∧ p.io_pending = false ∧
          p.saved_pc_valid = false) := by
  intro c
  constructor
  · intro h
    rw [kernelInit, if_pos h]
  · intro h3 h6
    refine ⟨by rw [kernelInit, if_neg (by omega)], ?_, ?_⟩
    · rw [initState_len]
      omega
    · intro p hp
      have hpd : p = pcbDefault := List.eq_of_mem_replicate hp
      rw [hpd]
      exact ⟨rfl, rfl, rfl⟩

theorem C9_startup_contract_witness :
    kernelInit 2 = none ∧
    kernelInit 4 = some (initState (4 : Int).toNat) ∧
    ((initState (4 : Int).toNat).pcb.length : Int) = 4 :=
  ⟨(C9_startup_contract 2).1 (by decide),
   ((C9_startup_contract 4).2 (by decide) (by decide)).1,
   ((C9_startup_contract 4).2 (by decide) (by decide)).2.1⟩

/-- C10: with a valid `current_running` index the selection scan always
exits within `num_apps` probes; with the initial sentinel -1 the loop's only
exits are finding a READY entry or reaching index `current_running`, so it
terminates exactly when some table entry is READY. -/
theorem C10_scan_termination :
    ∀ s : KState, 0 < s.num_apps →
      (0 ≤ s.current_running → s.current_running < (s.num_apps : Int) →
        findNext s ≠ none) ∧
      (s.current_running = -1 →
        ((∃ fuel, scanLoop s fuel (scanStart s) ≠ none) ↔
          ∃ i, i < s.num_apps ∧ s.stateOf i = ProcessState.READY)) := by
  intro s hn
  constructor
  · intro h0 h1
    exact findNext_ne_none s h0 h1
  · intro hcr
    have hs0 : scanStart s = 0 := by
      rw [scanStart, hcr]
      norm_num
    rw [hs0]
    constructor
    · rintro ⟨fuel, hne⟩
      rw [scanLoop_noBreak s hcr fuel 0 hn] at hne
      cases hfind : ((List.range fuel).map (fun k => (0 + k) % s.num_apps)).find?
          (fun x => s.stateOf x == ProcessState.READY) with
      | none => rw [hfind] at hne; exact absurd rfl hne
      | some x =>
        have hpx := List.find?_some hfind
        have hmem := List.mem_of_find?_eq_some hfind
        rw [List.mem_map] at hmem
        obtain ⟨k, -, hk⟩ := hmem
        refine ⟨x, ?_, ?_⟩
        · rw [← hk]
          exact Nat.mod_lt _ hn
        · rwa [beq_iff_eq] at hpx
    · rintro ⟨i, hi, hr⟩
      refine ⟨s.num_apps, ?_⟩
      rw [scanLoop_noBreak s hcr s.num_apps 0 hn]
      cases hfind : ((List.range s.num_apps).map
          (fun k => (0 + k) % s.num_apps)).find?
          (fun x => s.stateOf x == ProcessState.READY) with
      | none =>
        rw [List.find?_eq_none] at hfind
        have hmem : i ∈ (List.range s.num_apps).map
            (fun k => (0 + k) % s.num_apps) := by
          rw [List.mem_map]
          exact ⟨i, by rw [List.mem_range]; exact hi,
            by rw [Nat.zero_add, Nat.mod_eq_of_lt hi]⟩
        have := hfind i hmem
        rw [beq_iff_eq] at this
        exact absurd hr this
      | some x =>
        intro hc
        cases hc

theorem C10_scan_termination_witness :
    findNext bootState3 ≠ none ∧
    (∃ fuel, scanLoop (initState 3) fuel (scanStart (initState 3)) ≠ none) :=
  ⟨(C10_scan_termination bootState3 (by decide)).1 (by decide) (by decide),
   ((C10_scan_termination (initState 3) (by decide)).2 rfl).mpr
     ⟨0, by decide, by decide⟩⟩

end KernelSim
